import Mathlib

/-!
Verification development for the ndcopy library (file src/lib.rs).

The library exposes six operations: copy2, copy3, copy4 and fill2, fill3, fill4.
Each walks the outer axes of an extent with nested loops and, for each outer
coordinate combination, performs one bulk slice operation on a contiguous run
along axis 0, using an abstract shape capability linearize to compute run
start offsets.

Embedding choices, taken from the source:
- a buffer slice is a List, and the Rust slice expressions dst[a..b] and
  src[a..b] become Option-valued operations that return none exactly when
  Rust would panic with an out-of-range slice index (end > length);
- the shape capability Shape is an arbitrary linearize function on
  natural-number coordinates (the trait is open, so theorems quantify over
  all such functions); the cast from u32 to usize is value-preserving;
- the u32 coordinate increments src_y += 1 and friends wrap modulo 2^32,
  written explicitly with % W below;
- element cloning is value duplication, so clone is the identity on the
  modelled values (the specification assumes duplication has no side
  effects);
- the source slice argument of a copy is never written through (it is a
  shared borrow in the source), so the operations return only the new
  destination buffer.
-/

namespace Ndcopy

variable {α : Type}

/-- Modulus of 32-bit unsigned coordinate arithmetic. -/
def W : Nat := 2 ^ 32

/-- Model of the Rust slice read &src[s .. s + len]: none exactly when the
range is out of bounds (Rust panics), otherwise the len elements starting
at index s. -/
def readRun (src : List α) (s len : Nat) : Option (List α) :=
  if s + len ≤ src.length then some ((src.drop s).take len) else none

/-- Model of writing vals over dst[s .. s + vals.length]: none exactly when
the range is out of bounds (Rust panics). -/
def writeRun (dst : List α) (s : Nat) (vals : List α) : Option (List α) :=
  if s + vals.length ≤ dst.length then
    some (dst.take s ++ vals ++ dst.drop (s + vals.length))
  else none

/-- Model of dst[ds .. ds+len].clone_from_slice(&src[ss .. ss+len]): one bulk
run duplication. -/
def copyRun (src dst : List α) (ss ds len : Nat) : Option (List α) :=
  (readRun src ss len).bind (fun run => writeRun dst ds run)

/-- Model of dst[d .. d+len].fill(value.clone()): one bulk run fill. -/
def fillRun (dst : List α) (d len : Nat) (v : α) : Option (List α) :=
  writeRun dst d (List.replicate len v)

/-- Sequential execution of a list of copy runs, each given by a pair of a
source run start and a destination run start. -/
def copyRuns (src : List α) (len : Nat) : List (Nat × Nat) → List α → Option (List α)
  | [], dst => some dst
  | p :: rest, dst => (copyRun src dst p.1 p.2 len).bind (copyRuns src len rest)

/-- Sequential execution of a list of fill runs, each given by its destination
run start. -/
def fillRuns (v : α) (len : Nat) : List Nat → List α → Option (List α)
  | [], dst => some dst
  | d :: rest, dst => (fillRun dst d len v).bind (fillRuns v len rest)

/-- Innermost loop of the copy operations: the for loop over axis 1 in copy2
(lines 62-73 of the source), with the current axis-1 coordinates sy and dy
advanced by wrapping u32 increments. -/
def copyLoop1 (src : List α) (sl dl : Nat → Nat) (len : Nat) :
    Nat → Nat → Nat → List α → Option (List α)
  | 0, _, _, dst => some dst
  | cnt + 1, sy, dy, dst =>
    (copyRun src dst (sl sy) (dl dy) len).bind
      (copyLoop1 src sl dl len cnt ((sy + 1) % W) ((dy + 1) % W))

/-- Middle loop of copy3 and copy4: the for loop over axis 2, which resets the
axis-1 counters to sy0 and dy0 on every iteration (lines 189-206). -/
def copyLoop2 (src : List α) (sl dl : Nat → Nat → Nat) (len cnt1 sy0 dy0 : Nat) :
    Nat → Nat → Nat → List α → Option (List α)
  | 0, _, _, dst => some dst
  | cnt + 1, sz, dz, dst =>
    (copyLoop1 src (fun y => sl y sz) (fun y => dl y dz) len cnt1 sy0 dy0 dst).bind
      (copyLoop2 src sl dl len cnt1 sy0 dy0 cnt ((sz + 1) % W) ((dz + 1) % W))

/-- Outermost loop of copy4: the for loop over axis 3 (lines 331-356). -/
def copyLoop3 (src : List α) (sl dl : Nat → Nat → Nat → Nat)
    (len cnt1 sy0 dy0 cnt2 sz0 dz0 : Nat) :
    Nat → Nat → Nat → List α → Option (List α)
  | 0, _, _, dst => some dst
  | cnt + 1, sw, dw, dst =>
    (copyLoop2 src (fun y z => sl y z sw) (fun y z => dl y z dw) len cnt1 sy0 dy0
        cnt2 sz0 dz0 dst).bind
      (copyLoop3 src sl dl len cnt1 sy0 dy0 cnt2 sz0 dz0 cnt ((sw + 1) % W) ((dw + 1) % W))

/-- copy2 from the source (lines 45-74): copy_shape, src, src_shape, src_start,
dst, dst_shape, dst_start; row_length is copy_shape[0], and the loop runs
copy_shape[1] times over axis 1. -/
def copy2 (cs : Nat × Nat) (src : List α) (slin : Nat → Nat → Nat) (ss : Nat × Nat)
    (dst : List α) (dlin : Nat → Nat → Nat) (ds : Nat × Nat) : Option (List α) :=
  copyLoop1 src (fun y => slin ss.1 y) (fun y => dlin ds.1 y) cs.1 cs.2 ss.2 ds.2 dst

/-- copy3 from the source (lines 172-207): the z loop encloses the y loop. -/
def copy3 (cs : Nat × Nat × Nat) (src : List α) (slin : Nat → Nat → Nat → Nat)
    (ss : Nat × Nat × Nat) (dst : List α) (dlin : Nat → Nat → Nat → Nat)
    (ds : Nat × Nat × Nat) : Option (List α) :=
  copyLoop2 src (fun y z => slin ss.1 y z) (fun y z => dlin ds.1 y z)
    cs.1 cs.2.1 ss.2.1 ds.2.1 cs.2.2 ss.2.2 ds.2.2 dst

/-- copy4 from the source (lines 314-357): the w loop encloses the z loop which
encloses the y loop. -/
def copy4 (cs : Nat × Nat × Nat × Nat) (src : List α) (slin : Nat → Nat → Nat → Nat → Nat)
    (ss : Nat × Nat × Nat × Nat) (dst : List α) (dlin : Nat → Nat → Nat → Nat → Nat)
    (ds : Nat × Nat × Nat × Nat) : Option (List α) :=
  copyLoop3 src (fun y z w => slin ss.1 y z w) (fun y z w => dlin ds.1 y z w)
    cs.1 cs.2.1 ss.2.1 ds.2.1 cs.2.2.1 ss.2.2.1 ds.2.2.1 cs.2.2.2 ss.2.2.2 ds.2.2.2 dst

/-- Innermost loop of the fill operations (fill2, lines 130-137). -/
def fillLoop1 (v : α) (dl : Nat → Nat) (len : Nat) :
    Nat → Nat → List α → Option (List α)
  | 0, _, dst => some dst
  | cnt + 1, dy, dst =>
    (fillRun dst (dl dy) len v).bind (fillLoop1 v dl len cnt ((dy + 1) % W))

/-- Middle loop of fill3 and fill4 (lines 266-277). -/
def fillLoop2 (v : α) (dl : Nat → Nat → Nat) (len cnt1 dy0 : Nat) :
    Nat → Nat → List α → Option (List α)
  | 0, _, dst => some dst
  | cnt + 1, dz, dst =>
    (fillLoop1 v (fun y => dl y dz) len cnt1 dy0 dst).bind
      (fillLoop2 v dl len cnt1 dy0 cnt ((dz + 1) % W))

/-- Outermost loop of fill4 (lines 418-434). -/
def fillLoop3 (v : α) (dl : Nat → Nat → Nat → Nat) (len cnt1 dy0 cnt2 dz0 : Nat) :
    Nat → Nat → List α → Option (List α)
  | 0, _, dst => some dst
  | cnt + 1, dw, dst =>
    (fillLoop2 v (fun y z => dl y z dw) len cnt1 dy0 cnt2 dz0 dst).bind
      (fillLoop3 v dl len cnt1 dy0 cnt2 dz0 cnt ((dw + 1) % W))

/-- fill2 from the source (lines 117-138). -/
def fill2 (fs : Nat × Nat) (v : α) (dst : List α) (dlin : Nat → Nat → Nat)
    (ds : Nat × Nat) : Option (List α) :=
  fillLoop1 v (fun y => dlin ds.1 y) fs.1 fs.2 ds.2 dst

/-- fill3 from the source (lines 253-278). -/
def fill3 (fs : Nat × Nat × Nat) (v : α) (dst : List α) (dlin : Nat → Nat → Nat → Nat)
    (ds : Nat × Nat × Nat) : Option (List α) :=
  fillLoop2 v (fun y z => dlin ds.1 y z) fs.1 fs.2.1 ds.2.1 fs.2.2 ds.2.2 dst

/-- fill4 from the source (lines 405-435). -/
def fill4 (fs : Nat × Nat × Nat × Nat) (v : α) (dst : List α)
    (dlin : Nat → Nat → Nat → Nat → Nat) (ds : Nat × Nat × Nat × Nat) : Option (List α) :=
  fillLoop3 v (fun y z w => dlin ds.1 y z w)
    fs.1 fs.2.1 ds.2.1 fs.2.2.1 ds.2.2.1 fs.2.2.2 ds.2.2.2 dst

/-- Runs enumerated by copyLoop1 in execution order: pairs of source and
destination run starts. -/
def plan1 (sl dl : Nat → Nat) (cnt sy0 dy0 : Nat) : List (Nat × Nat) :=
  (List.range cnt).map (fun j => (sl ((sy0 + j) % W), dl ((dy0 + j) % W)))

/-- Runs enumerated by copyLoop2 in execution order. -/
def plan2 (sl dl : Nat → Nat → Nat) (cnt1 sy0 dy0 cnt2 sz0 dz0 : Nat) : List (Nat × Nat) :=
  (List.range cnt2).flatMap (fun k =>
    plan1 (fun y => sl y ((sz0 + k) % W)) (fun y => dl y ((dz0 + k) % W)) cnt1 sy0 dy0)

/-- Runs enumerated by copyLoop3 in execution order. -/
def plan3 (sl dl : Nat → Nat → Nat → Nat)
    (cnt1 sy0 dy0 cnt2 sz0 dz0 cnt3 sw0 dw0 : Nat) : List (Nat × Nat) :=
  (List.range cnt3).flatMap (fun l =>
    plan2 (fun y z => sl y z ((sw0 + l) % W)) (fun y z => dl y z ((dw0 + l) % W))
      cnt1 sy0 dy0 cnt2 sz0 dz0)

/-- Destination run starts enumerated by fillLoop1 in execution order. -/
def fplan1 (dl : Nat → Nat) (cnt dy0 : Nat) : List Nat :=
  (List.range cnt).map (fun j => dl ((dy0 + j) % W))

/-- Destination run starts enumerated by fillLoop2 in execution order. -/
def fplan2 (dl : Nat → Nat → Nat) (cnt1 dy0 cnt2 dz0 : Nat) : List Nat :=
  (List.range cnt2).flatMap (fun k => fplan1 (fun y => dl y ((dz0 + k) % W)) cnt1 dy0)

/-- Destination run starts enumerated by fillLoop3 in execution order. -/
def fplan3 (dl : Nat → Nat → Nat → Nat) (cnt1 dy0 cnt2 dz0 cnt3 dw0 : Nat) : List Nat :=
  (List.range cnt3).flatMap (fun l => fplan2 (fun y z => dl y z ((dw0 + l) % W)) cnt1 dy0 cnt2 dz0)

/-- The runs a copy2 call addresses. -/
def planCopy2 (cs : Nat × Nat) (slin : Nat → Nat → Nat) (ss : Nat × Nat)
    (dlin : Nat → Nat → Nat) (ds : Nat × Nat) : List (Nat × Nat) :=
  plan1 (fun y => slin ss.1 y) (fun y => dlin ds.1 y) cs.2 ss.2 ds.2

/-- The runs a copy3 call addresses. -/
def planCopy3 (cs : Nat × Nat × Nat) (slin : Nat → Nat → Nat → Nat) (ss : Nat × Nat × Nat)
    (dlin : Nat → Nat → Nat → Nat) (ds : Nat × Nat × Nat) : List (Nat × Nat) :=
  plan2 (fun y z => slin ss.1 y z) (fun y z => dlin ds.1 y z)
    cs.2.1 ss.2.1 ds.2.1 cs.2.2 ss.2.2 ds.2.2

/-- The runs a copy4 call addresses. -/
def planCopy4 (cs : Nat × Nat × Nat × Nat) (slin : Nat → Nat → Nat → Nat → Nat)
    (ss : Nat × Nat × Nat × Nat) (dlin : Nat → Nat → Nat → Nat → Nat)
    (ds : Nat × Nat × Nat × Nat) : List (Nat × Nat) :=
  plan3 (fun y z w => slin ss.1 y z w) (fun y z w => dlin ds.1 y z w)
    cs.2.1 ss.2.1 ds.2.1 cs.2.2.1 ss.2.2.1 ds.2.2.1 cs.2.2.2 ss.2.2.2 ds.2.2.2

/-- The destination run starts a fill2 call addresses. -/
def planFill2 (fs : Nat × Nat) (dlin : Nat → Nat → Nat) (ds : Nat × Nat) : List Nat :=
  fplan1 (fun y => dlin ds.1 y) fs.2 ds.2

/-- The destination run starts a fill3 call addresses. -/
def planFill3 (fs : Nat × Nat × Nat) (dlin : Nat → Nat → Nat → Nat)
    (ds : Nat × Nat × Nat) : List Nat :=
  fplan2 (fun y z => dlin ds.1 y z) fs.2.1 ds.2.1 fs.2.2 ds.2.2

/-- The destination run starts a fill4 call addresses. -/
def planFill4 (fs : Nat × Nat × Nat × Nat) (dlin : Nat → Nat → Nat → Nat → Nat)
    (ds : Nat × Nat × Nat × Nat) : List Nat :=
  fplan3 (fun y z w => dlin ds.1 y z w) fs.2.1 ds.2.1 fs.2.2.1 ds.2.2.1 fs.2.2.2 ds.2.2.2

/-- Linear index i lies in the run of length len starting at d. -/
abbrev hits (len i d : Nat) : Prop := d ≤ i ∧ i < d + len

/-- The length-len runs starting at a and b occupy disjoint index sets. -/
abbrev disjRuns (len a b : Nat) : Prop := a + len ≤ b ∨ b + len ≤ a

/-- Every touched coordinate of the 2D extent e at start s linearizes below n. -/
abbrev inB2 (lin : Nat → Nat → Nat) (s e : Nat × Nat) (n : Nat) : Prop :=
  ∀ a, a < e.1 → ∀ b, b < e.2 → lin (s.1 + a) (s.2 + b) < n

/-- Axis 0 is contiguous under lin across the touched 2D region. -/
abbrev contig2 (lin : Nat → Nat → Nat) (s e : Nat × Nat) : Prop :=
  ∀ a, a < e.1 → ∀ b, b < e.2 → lin (s.1 + a) (s.2 + b) = lin s.1 (s.2 + b) + a

/-- lin is injective on the touched 2D region. -/
abbrev inj2 (lin : Nat → Nat → Nat) (s e : Nat × Nat) : Prop :=
  ∀ a, a < e.1 → ∀ b, b < e.2 → ∀ a', a' < e.1 → ∀ b', b' < e.2 →
    lin (s.1 + a) (s.2 + b) = lin (s.1 + a') (s.2 + b') → a = a' ∧ b = b'

/-- The touched 2D coordinates are representable as u32 values, so the wrapping
coordinate increments never actually wrap. -/
abbrev rep2 (s e : Nat × Nat) : Prop := s.2 < W ∧ s.2 + e.2 ≤ W

/-- Every touched coordinate of the 3D extent e at start s linearizes below n. -/
abbrev inB3 (lin : Nat → Nat → Nat → Nat) (s e : Nat × Nat × Nat) (n : Nat) : Prop :=
  ∀ a, a < e.1 → ∀ b, b < e.2.1 → ∀ c, c < e.2.2 →
    lin (s.1 + a) (s.2.1 + b) (s.2.2 + c) < n

/-- Axis 0 is contiguous under lin across the touched 3D region. -/
abbrev contig3 (lin : Nat → Nat → Nat → Nat) (s e : Nat × Nat × Nat) : Prop :=
  ∀ a, a < e.1 → ∀ b, b < e.2.1 → ∀ c, c < e.2.2 →
    lin (s.1 + a) (s.2.1 + b) (s.2.2 + c) = lin s.1 (s.2.1 + b) (s.2.2 + c) + a

/-- lin is injective on the touched 3D region. -/
abbrev inj3 (lin : Nat → Nat → Nat → Nat) (s e : Nat × Nat × Nat) : Prop :=
  ∀ a, a < e.1 → ∀ b, b < e.2.1 → ∀ c, c < e.2.2 →
    ∀ a', a' < e.1 → ∀ b', b' < e.2.1 → ∀ c', c' < e.2.2 →
      lin (s.1 + a) (s.2.1 + b) (s.2.2 + c) = lin (s.1 + a') (s.2.1 + b') (s.2.2 + c') →
      a = a' ∧ b = b' ∧ c = c'

/-- The touched 3D coordinates are representable as u32 values. -/
abbrev rep3 (s e : Nat × Nat × Nat) : Prop :=
  s.2.1 < W ∧ s.2.1 + e.2.1 ≤ W ∧ s.2.2 < W ∧ s.2.2 + e.2.2 ≤ W

/-- Every touched coordinate of the 4D extent e at start s linearizes below n. -/
abbrev inB4 (lin : Nat → Nat → Nat → Nat → Nat) (s e : Nat × Nat × Nat × Nat) (n : Nat) : Prop :=
  ∀ a, a < e.1 → ∀ b, b < e.2.1 → ∀ c, c < e.2.2.1 → ∀ d, d < e.2.2.2 →
    lin (s.1 + a) (s.2.1 + b) (s.2.2.1 + c) (s.2.2.2 + d) < n

/-- Axis 0 is contiguous under lin across the touched 4D region. -/
abbrev contig4 (lin : Nat → Nat → Nat → Nat → Nat) (s e : Nat × Nat × Nat × Nat) : Prop :=
  ∀ a, a < e.1 → ∀ b, b < e.2.1 → ∀ c, c < e.2.2.1 → ∀ d, d < e.2.2.2 →
    lin (s.1 + a) (s.2.1 + b) (s.2.2.1 + c) (s.2.2.2 + d) =
      lin s.1 (s.2.1 + b) (s.2.2.1 + c) (s.2.2.2 + d) + a

/-- lin is injective on the touched 4D region. -/
abbrev inj4 (lin : Nat → Nat → Nat → Nat → Nat) (s e : Nat × Nat × Nat × Nat) : Prop :=
  ∀ a, a < e.1 → ∀ b, b < e.2.1 → ∀ c, c < e.2.2.1 → ∀ d, d < e.2.2.2 →
    ∀ a', a' < e.1 → ∀ b', b' < e.2.1 → ∀ c', c' < e.2.2.1 → ∀ d', d' < e.2.2.2 →
      lin (s.1 + a) (s.2.1 + b) (s.2.2.1 + c) (s.2.2.2 + d) =
        lin (s.1 + a') (s.2.1 + b') (s.2.2.1 + c') (s.2.2.2 + d') →
      a = a' ∧ b = b' ∧ c = c' ∧ d = d'

/-- The touched 4D coordinates are representable as u32 values. -/
abbrev rep4 (s e : Nat × Nat × Nat × Nat) : Prop :=
  s.2.1 < W ∧ s.2.1 + e.2.1 ≤ W ∧ s.2.2.1 < W ∧ s.2.2.1 + e.2.2.1 ≤ W ∧
    s.2.2.2 < W ∧ s.2.2.2 + e.2.2.2 ≤ W

/-- Row-major linearize of the 10 x 11 x 12 x 13 source shape of the concrete
4D scenario (ConstShape4u32 with strides 1, 10, 110, 1320). -/
def srcLin4 (x y z w : Nat) : Nat := x + 10 * y + 110 * z + 1320 * w

/-- Row-major linearize of the 11 x 12 x 13 x 14 destination shape of the
concrete 4D scenario (strides 1, 11, 132, 1716). -/
def dstLin4 (x y z w : Nat) : Nat := x + 11 * y + 132 * z + 1716 * w

/-- Expected destination value of the concrete 4D scenario: 1 inside the copied
hyper-rectangle, 0 elsewhere. -/
def boxVal (x y z w : Nat) : Nat :=
  if 4 ≤ x ∧ x < 6 ∧ 5 ≤ y ∧ y < 8 ∧ 6 ≤ z ∧ z < 10 ∧ 7 ≤ w ∧ w < 12 then 1 else 0

/-- A 2-wide row-major 2D linearize, used in concrete instances. -/
def rowLin (x y : Nat) : Nat := x + 2 * y

/-- A degenerate 2D shape that collapses axis 1: it satisfies the axis-0
contiguity precondition, yet maps every row to the same run. -/
def collapseLin (x : Nat) (_ : Nat) : Nat := x

/-- A constant 2D linearize used to exhibit out-of-range empty-slice indexing
when the axis-0 extent is zero. -/
def farLin (_ : Nat) (_ : Nat) : Nat := 5

/-- A 2 x 2 x 2 row-major 3D linearize, used in concrete instances. -/
def rowLin3 (x y z : Nat) : Nat := x + 2 * y + 4 * z

/-- A 2 x 2 x 2 x 2 row-major 4D linearize, used in concrete instances. -/
def rowLin4 (x y z w : Nat) : Nat := x + 2 * y + 4 * z + 8 * w

theorem W_pos : 0 < W := by norm_num [W]

theorem writeRun_isSome_iff {dst : List α} {s : Nat} {vals : List α} :
    (writeRun dst s vals).isSome ↔ s + vals.length ≤ dst.length := by
  unfold writeRun; split <;> simp [*]

theorem writeRun_length {dst r : List α} {s : Nat} {vals : List α}
    (h : writeRun dst s vals = some r) : r.length = dst.length := by
  unfold writeRun at h
  split at h
  · simp only [Option.some.injEq] at h
    subst h
    simp only [List.length_append, List.length_take, List.length_drop]
    omega
  · exact absurd h (by simp)

theorem writeRun_getElem? {dst r : List α} {s : Nat} {vals : List α}
    (h : writeRun dst s vals = some r) (i : Nat) :
    r[i]? = if s ≤ i ∧ i < s + vals.length then vals[i - s]? else dst[i]? := by
  unfold writeRun at h
  split at h
  case isFalse => exact absurd h (by simp)
  case isTrue hb =>
    simp only [Option.some.injEq] at h
    subst h
    have hts : (dst.take s).length = s := by
      simp only [List.length_take]; omega
    rcases Nat.lt_or_ge i s with h1 | h1
    · rw [if_neg (by omega), List.append_assoc,
        List.getElem?_append_left (by omega), List.getElem?_take_of_lt h1]
    · rw [List.append_assoc, List.getElem?_append_right (by omega), hts]
      rcases Nat.lt_or_ge i (s + vals.length) with h2 | h2
      · rw [if_pos ⟨h1, h2⟩, List.getElem?_append_left (by omega)]
      · rw [if_neg (by omega), List.getElem?_append_right (by omega),
          List.getElem?_drop]
        congr 1
        omega

theorem readRun_isSome_iff {src : List α} {s len : Nat} :
    (readRun src s len).isSome ↔ s + len ≤ src.length := by
  unfold readRun; split <;> simp [*]

theorem readRun_length {src run : List α} {s len : Nat}
    (h : readRun src s len = some run) : run.length = len := by
  unfold readRun at h
  split at h
  case isFalse => exact absurd h (by simp)
  case isTrue hb =>
    simp only [Option.some.injEq] at h
    subst h
    simp only [List.length_take, List.length_drop]
    omega

theorem readRun_getElem? {src run : List α} {s len : Nat}
    (h : readRun src s len = some run) {o : Nat} (ho : o < len) :
    run[o]? = src[s + o]? := by
  unfold readRun at h
  split at h
  case isFalse => exact absurd h (by simp)
  case isTrue hb =>
    simp only [Option.some.injEq] at h
    subst h
    rw [List.getElem?_take_of_lt ho, List.getElem?_drop]

theorem copyRun_isSome_iff {src dst : List α} {ss ds len : Nat} :
    (copyRun src dst ss ds len).isSome ↔
      ss + len ≤ src.length ∧ ds + len ≤ dst.length := by
  unfold copyRun
  cases h : readRun src ss len with
  | none =>
    have := @readRun_isSome_iff _ src ss len
    rw [h] at this
    simp only [Option.none_bind, Option.isSome_none, Bool.false_eq_true, false_iff]
    intro hc
    exact absurd (this.mpr hc.1) (by simp)
  | some run =>
    have hs : ss + len ≤ src.length := by
      have := @readRun_isSome_iff _ src ss len
      rw [h] at this
      exact this.mp (by simp)
    have hl := readRun_length h
    simp only [Option.some_bind, writeRun_isSome_iff, hl, hs, true_and]

theorem copyRun_length {src dst r : List α} {ss ds len : Nat}
    (h : copyRun src dst ss ds len = some r) : r.length = dst.length := by
  unfold copyRun at h
  cases hr : readRun src ss len with
  | none => rw [hr] at h; exact absurd h (by simp)
  | some run => rw [hr] at h; exact writeRun_length h

theorem copyRun_getElem? {src dst r : List α} {ss ds len : Nat}
    (h : copyRun src dst ss ds len = some r) (i : Nat) :
    r[i]? = if ds ≤ i ∧ i < ds + len then src[ss + (i - ds)]? else dst[i]? := by
  unfold copyRun at h
  cases hr : readRun src ss len with
  | none => rw [hr] at h; exact absurd h (by simp)
  | some run =>
    rw [hr] at h
    have hl := readRun_length hr
    rw [writeRun_getElem? h i, hl]
    split
    case isTrue hin => exact readRun_getElem? hr (by omega)
    case isFalse => rfl

theorem fillRun_isSome_iff {dst : List α} {d len : Nat} {v : α} :
    (fillRun dst d len v).isSome ↔ d + len ≤ dst.length := by
  unfold fillRun
  rw [writeRun_isSome_iff, List.length_replicate]

theorem fillRun_length {dst r : List α} {d len : Nat} {v : α}
    (h : fillRun dst d len v = some r) : r.length = dst.length :=
  writeRun_length h

theorem fillRun_getElem? {dst r : List α} {d len : Nat} {v : α}
    (h : fillRun dst d len v = some r) (i : Nat) :
    r[i]? = if d ≤ i ∧ i < d + len then some v else dst[i]? := by
  unfold fillRun at h
  rw [writeRun_getElem? h i, List.length_replicate]
  split
  case isTrue hin => rw [List.getElem?_replicate, if_pos (by omega)]
  case isFalse => rfl

theorem copyRuns_append (src : List α) (len : Nat) (l1 l2 : List (Nat × Nat)) (dst : List α) :
    copyRuns src len (l1 ++ l2) dst =
      (copyRuns src len l1 dst).bind (fun d => copyRuns src len l2 d) := by
  induction l1 generalizing dst with
  | nil => simp [copyRuns]
  | cons p rest ih =>
    simp only [List.cons_append, copyRuns]
    cases copyRun src dst p.1 p.2 len with
    | none => simp
    | some dst1 => simpa using ih dst1

theorem copyRuns_length {src dst r : List α} {len : Nat} {runs : List (Nat × Nat)}
    (h : copyRuns src len runs dst = some r) : r.length = dst.length := by
  induction runs generalizing dst with
  | nil => simp only [copyRuns, Option.some.injEq] at h; subst h; rfl
  | cons p rest ih =>
    simp only [copyRuns] at h
    cases hc : copyRun src dst p.1 p.2 len with
    | none => rw [hc] at h; exact absurd h (by simp)
    | some dst1 =>
      rw [hc] at h
      simp only [Option.some_bind] at h
      rw [ih h, copyRun_length hc]

theorem copyRuns_isSome_iff {src dst : List α} {len : Nat} {runs : List (Nat × Nat)} :
    (copyRuns src len runs dst).isSome ↔
      ∀ p ∈ runs, p.1 + len ≤ src.length ∧ p.2 + len ≤ dst.length := by
  induction runs generalizing dst with
  | nil => simp [copyRuns]
  | cons p rest ih =>
    simp only [copyRuns]
    cases hc : copyRun src dst p.1 p.2 len with
    | none =>
      have hns := @copyRun_isSome_iff _ src dst p.1 p.2 len
      rw [hc] at hns
      simp only [Option.none_bind, Option.isSome_none, Bool.false_eq_true, false_iff]
      intro hall
      exact absurd (hns.mpr (hall p (by simp))) (by simp)
    | some dst1 =>
      have hok := @copyRun_isSome_iff _ src dst p.1 p.2 len
      rw [hc] at hok
      have hp := hok.mp (by simp)
      have hl := copyRun_length hc
      simp only [Option.some_bind, ih, List.mem_cons, hl]
      constructor
      · intro hall q hq
        rcases hq with rfl | hq
        · exact hp
        · exact hall q hq
      · intro hall q hq
        exact hall q (Or.inr hq)

theorem copyRuns_frame {src dst r : List α} {len i : Nat} {runs : List (Nat × Nat)}
    (h : copyRuns src len runs dst = some r)
    (hout : ∀ p ∈ runs, ¬ hits len i p.2) : r[i]? = dst[i]? := by
  induction runs generalizing dst with
  | nil => simp only [copyRuns, Option.some.injEq] at h; subst h; rfl
  | cons p rest ih =>
    simp only [copyRuns] at h
    cases hc : copyRun src dst p.1 p.2 len with
    | none => rw [hc] at h; exact absurd h (by simp)
    | some dst1 =>
      rw [hc] at h
      simp only [Option.some_bind] at h
      rw [ih h (fun q hq => hout q (List.mem_cons_of_mem _ hq)),
        copyRun_getElem? hc i, if_neg (hout p (List.mem_cons_self _ _))]

theorem copyRuns_value {src dst r : List α} {len i : Nat} {runs : List (Nat × Nat)}
    {p : Nat × Nat} (h : copyRuns src len runs dst = some r) (hp : p ∈ runs)
    (hhit : hits len i p.2) (huniq : ∀ q ∈ runs, hits len i q.2 → q = p) :
    r[i]? = src[p.1 + (i - p.2)]? := by
  induction runs generalizing dst with
  | nil => exact absurd hp (by simp)
  | cons q0 rest ih =>
    simp only [copyRuns] at h
    cases hc : copyRun src dst q0.1 q0.2 len with
    | none => rw [hc] at h; exact absurd h (by simp)
    | some dst1 =>
      rw [hc] at h
      simp only [Option.some_bind] at h
      by_cases hrest : ∃ q ∈ rest, hits len i q.2
      · obtain ⟨q, hq, hqh⟩ := hrest
        have hqp : q = p := huniq q (List.mem_cons_of_mem _ hq) hqh
        subst hqp
        exact ih h hq (fun q' hq' hh => huniq q' (List.mem_cons_of_mem _ hq') hh)
      · push_neg at hrest
        have hfr := copyRuns_frame h hrest
        have hq0 : q0 = p := by
          rcases List.mem_cons.mp hp with h' | h'
          · exact h'.symm
          · exact absurd hhit (hrest p h')
        subst hq0
        rw [hfr, copyRun_getElem? hc i, if_pos ⟨hhit.1, hhit.2⟩]

theorem copyRuns_zeroLen_of {src dst : List α} {runs : List (Nat × Nat)}
    (hb : ∀ p ∈ runs, p.1 ≤ src.length ∧ p.2 ≤ dst.length) :
    copyRuns src 0 runs dst = some dst := by
  induction runs with
  | nil => rfl
  | cons p rest ih =>
    have hp := hb p (List.mem_cons_self _ _)
    have hcr : copyRun src dst p.1 p.2 0 = some dst := by
      unfold copyRun readRun writeRun
      rw [if_pos (by omega)]
      simp only [Option.some_bind, List.take_zero, List.length_nil, Nat.add_zero]
      rw [if_pos (by omega)]
      simp [List.take_append_drop]
    simp only [copyRuns, hcr, Option.some_bind]
    exact ih (fun q hq => hb q (List.mem_cons_of_mem _ hq))

theorem fillRuns_append (v : α) (len : Nat) (l1 l2 : List Nat) (dst : List α) :
    fillRuns v len (l1 ++ l2) dst =
      (fillRuns v len l1 dst).bind (fun d => fillRuns v len l2 d) := by
  induction l1 generalizing dst with
  | nil => simp [fillRuns]
  | cons d rest ih =>
    simp only [List.cons_append, fillRuns]
    cases fillRun dst d len v with
    | none => simp
    | some dst1 => simpa using ih dst1

theorem fillRuns_length {dst r : List α} {v : α} {len : Nat} {runs : List Nat}
    (h : fillRuns v len runs dst = some r) : r.length = dst.length := by
  induction runs generalizing dst with
  | nil => simp only [fillRuns, Option.some.injEq] at h; subst h; rfl
  | cons d rest ih =>
    simp only [fillRuns] at h
    cases hc : fillRun dst d len v with
    | none => rw [hc] at h; exact absurd h (by simp)
    | some dst1 =>
      rw [hc] at h
      simp only [Option.some_bind] at h
      rw [ih h, fillRun_length hc]

theorem fillRuns_isSome_iff {dst : List α} {v : α} {len : Nat} {runs : List Nat} :
    (fillRuns v len runs dst).isSome ↔ ∀ d ∈ runs, d + len ≤ dst.length := by
  induction runs generalizing dst with
  | nil => simp [fillRuns]
  | cons d rest ih =>
    simp only [fillRuns]
    cases hc : fillRun dst d len v with
    | none =>
      have hns := @fillRun_isSome_iff _ dst d len v
      rw [hc] at hns
      simp only [Option.none_bind, Option.isSome_none, Bool.false_eq_true, false_iff]
      intro hall
      exact absurd (hns.mpr (hall d (by simp))) (by simp)
    | some dst1 =>
      have hok := @fillRun_isSome_iff _ dst d len v
      rw [hc] at hok
      have hd := hok.mp (by simp)
      have hl := fillRun_length hc
      simp only [Option.some_bind, ih, List.mem_cons, hl]
      constructor
      · intro hall q hq
        rcases hq with rfl | hq
        · exact hd
        · exact hall q hq
      · intro hall q hq
        exact hall q (Or.inr hq)

theorem fillRuns_frame {dst r : List α} {v : α} {len i : Nat} {runs : List Nat}
    (h : fillRuns v len runs dst = some r)
    (hout : ∀ d ∈ runs, ¬ hits len i d) : r[i]? = dst[i]? := by
  induction runs generalizing dst with
  | nil => simp only [fillRuns, Option.some.injEq] at h; subst h; rfl
  | cons d rest ih =>
    simp only [fillRuns] at h
    cases hc : fillRun dst d len v with
    | none => rw [hc] at h; exact absurd h (by simp)
    | some dst1 =>
      rw [hc] at h
      simp only [Option.some_bind] at h
      rw [ih h (fun q hq => hout q (List.mem_cons_of_mem _ hq)),
        fillRun_getElem? hc i, if_neg (hout d (List.mem_cons_self _ _))]

theorem fillRuns_value {dst r : List α} {v : α} {len i : Nat} {runs : List Nat}
    (h : fillRuns v len runs dst = some r) (hex : ∃ d ∈ runs, hits len i d) :
    r[i]? = some v := by
  induction runs generalizing dst with
  | nil => simp at hex
  | cons d0 rest ih =>
    simp only [fillRuns] at h
    cases hc : fillRun dst d0 len v with
    | none => rw [hc] at h; exact absurd h (by simp)
    | some dst1 =>
      rw [hc] at h
      simp only [Option.some_bind] at h
      by_cases hrest : ∃ q ∈ rest, hits len i q
      · exact ih h hrest
      · push_neg at hrest
        have hfr := fillRuns_frame h hrest
        obtain ⟨d, hd, hhit⟩ := hex
        have hd0 : d0 = d := by
          rcases List.mem_cons.mp hd with h' | h'
          · exact h'.symm
          · exact absurd hhit (hrest d h')
        subst hd0
        rw [hfr, fillRun_getElem? hc i, if_pos ⟨hhit.1, hhit.2⟩]

theorem fillRuns_zeroLen_of {dst : List α} {v : α} {runs : List Nat}
    (hb : ∀ d ∈ runs, d ≤ dst.length) :
    fillRuns v 0 runs dst = some dst := by
  induction runs with
  | nil => rfl
  | cons d rest ih =>
    have hd := hb d (List.mem_cons_self _ _)
    have hcr : fillRun dst d 0 v = some dst := by
      unfold fillRun writeRun
      rw [List.replicate_zero, if_pos (by simpa using hd)]
      simp [List.take_append_drop]
    simp only [fillRuns, hcr, Option.some_bind]
    exact ih (fun q hq => hb q (List.mem_cons_of_mem _ hq))

theorem plan1_cons (sl dl : Nat → Nat) (cnt sy0 dy0 : Nat) :
    plan1 sl dl (cnt + 1) sy0 dy0 =
      (sl (sy0 % W), dl (dy0 % W)) :: plan1 sl dl cnt ((sy0 + 1) % W) ((dy0 + 1) % W) := by
  unfold plan1
  rw [List.range_succ_eq_map, List.map_cons, List.map_map]
  refine congrArg₂ List.cons rfl ?_
  apply List.map_congr_left
  intro j _
  have e1 : (sy0 + Nat.succ j) % W = ((sy0 + 1) % W + j) % W := by
    rw [Nat.mod_add_mod]
    congr 1
    omega
  have e2 : (dy0 + Nat.succ j) % W = ((dy0 + 1) % W + j) % W := by
    rw [Nat.mod_add_mod]
    congr 1
    omega
  simp only [Function.comp_apply]
  rw [e1, e2]

theorem plan2_cons (sl dl : Nat → Nat → Nat) (cnt1 sy0 dy0 cnt2 sz0 dz0 : Nat) :
    plan2 sl dl cnt1 sy0 dy0 (cnt2 + 1) sz0 dz0 =
      plan1 (fun y => sl y (sz0 % W)) (fun y => dl y (dz0 % W)) cnt1 sy0 dy0 ++
        plan2 sl dl cnt1 sy0 dy0 cnt2 ((sz0 + 1) % W) ((dz0 + 1) % W) := by
  unfold plan2
  rw [List.range_succ_eq_map, List.flatMap_cons, List.flatMap_map]
  refine congrArg₂ (· ++ ·) rfl ?_
  apply List.flatMap_congr
  intro k _
  have e1 : ((sz0 + 1) % W + k) % W = (sz0 + Nat.succ k) % W := by
    rw [Nat.mod_add_mod]
    congr 1
    omega
  have e2 : ((dz0 + 1) % W + k) % W = (dz0 + Nat.succ k) % W := by
    rw [Nat.mod_add_mod]
    congr 1
    omega
  rw [e1, e2]

theorem plan3_cons (sl dl : Nat → Nat → Nat → Nat)
    (cnt1 sy0 dy0 cnt2 sz0 dz0 cnt3 sw0 dw0 : Nat) :
    plan3 sl dl cnt1 sy0 dy0 cnt2 sz0 dz0 (cnt3 + 1) sw0 dw0 =
      plan2 (fun y z => sl y z (sw0 % W)) (fun y z => dl y z (dw0 % W))
          cnt1 sy0 dy0 cnt2 sz0 dz0 ++
        plan3 sl dl cnt1 sy0 dy0 cnt2 sz0 dz0 cnt3 ((sw0 + 1) % W) ((dw0 + 1) % W) := by
  unfold plan3
  rw [List.range_succ_eq_map, List.flatMap_cons, List.flatMap_map]
  refine congrArg₂ (· ++ ·) rfl ?_
  apply List.flatMap_congr
  intro l _
  have e1 : ((sw0 + 1) % W + l) % W = (sw0 + Nat.succ l) % W := by
    rw [Nat.mod_add_mod]
    congr 1
    omega
  have e2 : ((dw0 + 1) % W + l) % W = (dw0 + Nat.succ l) % W := by
    rw [Nat.mod_add_mod]
    congr 1
    omega
  rw [e1, e2]

theorem fplan1_cons (dl : Nat → Nat) (cnt dy0 : Nat) :
    fplan1 dl (cnt + 1) dy0 = dl (dy0 % W) :: fplan1 dl cnt ((dy0 + 1) % W) := by
  unfold fplan1
  rw [List.range_succ_eq_map, List.map_cons, List.map_map]
  refine congrArg₂ List.cons rfl ?_
  apply List.map_congr_left
  intro j _
  have e2 : (dy0 + Nat.succ j) % W = ((dy0 + 1) % W + j) % W := by
    rw [Nat.mod_add_mod]
    congr 1
    omega
  simp only [Function.comp_apply]
  rw [e2]

theorem fplan2_cons (dl : Nat → Nat → Nat) (cnt1 dy0 cnt2 dz0 : Nat) :
    fplan2 dl cnt1 dy0 (cnt2 + 1) dz0 =
      fplan1 (fun y => dl y (dz0 % W)) cnt1 dy0 ++
        fplan2 dl cnt1 dy0 cnt2 ((dz0 + 1) % W) := by
  unfold fplan2
  rw [List.range_succ_eq_map, List.flatMap_cons, List.flatMap_map]
  refine congrArg₂ (· ++ ·) rfl ?_
  apply List.flatMap_congr
  intro k _
  have e2 : ((dz0 + 1) % W + k) % W = (dz0 + Nat.succ k) % W := by
    rw [Nat.mod_add_mod]
    congr 1
    omega
  rw [e2]

theorem fplan3_cons (dl : Nat → Nat → Nat → Nat) (cnt1 dy0 cnt2 dz0 cnt3 dw0 : Nat) :
    fplan3 dl cnt1 dy0 cnt2 dz0 (cnt3 + 1) dw0 =
      fplan2 (fun y z => dl y z (dw0 % W)) cnt1 dy0 cnt2 dz0 ++
        fplan3 dl cnt1 dy0 cnt2 dz0 cnt3 ((dw0 + 1) % W) := by
  unfold fplan3
  rw [List.range_succ_eq_map, List.flatMap_cons, List.flatMap_map]
  refine congrArg₂ (· ++ ·) rfl ?_
  apply List.flatMap_congr
  intro l _
  have e2 : ((dw0 + 1) % W + l) % W = (dw0 + Nat.succ l) % W := by
    rw [Nat.mod_add_mod]
    congr 1
    omega
  rw [e2]

theorem copyLoop1_eq_runs (src : List α) (sl dl : Nat → Nat) (len : Nat) :
    ∀ (cnt sy0 dy0 : Nat), sy0 < W → dy0 < W → ∀ (dst : List α),
      copyLoop1 src sl dl len cnt sy0 dy0 dst =
        copyRuns src len (plan1 sl dl cnt sy0 dy0) dst := by
  intro cnt
  induction cnt with
  | zero => intro sy0 dy0 _ _ dst; simp [copyLoop1, plan1, copyRuns]
  | succ n ih =>
    intro sy0 dy0 hy hy' dst
    rw [plan1_cons, Nat.mod_eq_of_lt hy, Nat.mod_eq_of_lt hy']
    simp only [copyLoop1, copyRuns]
    cases copyRun src dst (sl sy0) (dl dy0) len with
    | none => simp
    | some dst1 =>
      simp only [Option.some_bind]
      exact ih _ _ (Nat.mod_lt _ W_pos) (Nat.mod_lt _ W_pos) dst1

theorem copyLoop2_eq_runs (src : List α) (sl dl : Nat → Nat → Nat)
    (len cnt1 sy0 dy0 : Nat) (hy : sy0 < W) (hy' : dy0 < W) :
    ∀ (cnt2 sz0 dz0 : Nat), sz0 < W → dz0 < W → ∀ (dst : List α),
      copyLoop2 src sl dl len cnt1 sy0 dy0 cnt2 sz0 dz0 dst =
        copyRuns src len (plan2 sl dl cnt1 sy0 dy0 cnt2 sz0 dz0) dst := by
  intro cnt2
  induction cnt2 with
  | zero => intro sz0 dz0 _ _ dst; simp [copyLoop2, plan2, copyRuns]
  | succ n ih =>
    intro sz0 dz0 hz hz' dst
    rw [plan2_cons, Nat.mod_eq_of_lt hz, Nat.mod_eq_of_lt hz', copyRuns_append]
    simp only [copyLoop2]
    rw [copyLoop1_eq_runs src _ _ len cnt1 sy0 dy0 hy hy' dst]
    cases copyRuns src len (plan1 (fun y => sl y sz0) (fun y => dl y dz0) cnt1 sy0 dy0) dst with
    | none => simp
    | some dst1 =>
      simp only [Option.some_bind]
      exact ih _ _ (Nat.mod_lt _ W_pos) (Nat.mod_lt _ W_pos) dst1

theorem copyLoop3_eq_runs (src : List α) (sl dl : Nat → Nat → Nat → Nat)
    (len cnt1 sy0 dy0 cnt2 sz0 dz0 : Nat)
    (hy : sy0 < W) (hy' : dy0 < W) (hz : sz0 < W) (hz' : dz0 < W) :
    ∀ (cnt3 sw0 dw0 : Nat), sw0 < W → dw0 < W → ∀ (dst : List α),
      copyLoop3 src sl dl len cnt1 sy0 dy0 cnt2 sz0 dz0 cnt3 sw0 dw0 dst =
        copyRuns src len (plan3 sl dl cnt1 sy0 dy0 cnt2 sz0 dz0 cnt3 sw0 dw0) dst := by
  intro cnt3
  induction cnt3 with
  | zero => intro sw0 dw0 _ _ dst; simp [copyLoop3, plan3, copyRuns]
  | succ n ih =>
    intro sw0 dw0 hw hw' dst
    rw [plan3_cons, Nat.mod_eq_of_lt hw, Nat.mod_eq_of_lt hw', copyRuns_append]
    simp only [copyLoop3]
    rw [copyLoop2_eq_runs src _ _ len cnt1 sy0 dy0 hy hy' cnt2 sz0 dz0 hz hz' dst]
    cases copyRuns src len
        (plan2 (fun y z => sl y z sw0) (fun y z => dl y z dw0) cnt1 sy0 dy0 cnt2 sz0 dz0) dst with
    | none => simp
    | some dst1 =>
      simp only [Option.some_bind]
      exact ih _ _ (Nat.mod_lt _ W_pos) (Nat.mod_lt _ W_pos) dst1

theorem fillLoop1_eq_runs (v : α) (dl : Nat → Nat) (len : Nat) :
    ∀ (cnt dy0 : Nat), dy0 < W → ∀ (dst : List α),
      fillLoop1 v dl len cnt dy0 dst = fillRuns v len (fplan1 dl cnt dy0) dst := by
  intro cnt
  induction cnt with
  | zero => intro dy0 _ dst; simp [fillLoop1, fplan1, fillRuns]
  | succ n ih =>
    intro dy0 hy dst
    rw [fplan1_cons, Nat.mod_eq_of_lt hy]
    simp only [fillLoop1, fillRuns]
    cases fillRun dst (dl dy0) len v with
    | none => simp
    | some dst1 =>
      simp only [Option.some_bind]
      exact ih _ (Nat.mod_lt _ W_pos) dst1

theorem fillLoop2_eq_runs (v : α) (dl : Nat → Nat → Nat) (len cnt1 dy0 : Nat)
    (hy : dy0 < W) :
    ∀ (cnt2 dz0 : Nat), dz0 < W → ∀ (dst : List α),
      fillLoop2 v dl len cnt1 dy0 cnt2 dz0 dst =
        fillRuns v len (fplan2 dl cnt1 dy0 cnt2 dz0) dst := by
  intro cnt2
  induction cnt2 with
  | zero => intro dz0 _ dst; simp [fillLoop2, fplan2, fillRuns]
  | succ n ih =>
    intro dz0 hz dst
    rw [fplan2_cons, Nat.mod_eq_of_lt hz, fillRuns_append]
    simp only [fillLoop2]
    rw [fillLoop1_eq_runs v _ len cnt1 dy0 hy dst]
    cases fillRuns v len (fplan1 (fun y => dl y dz0) cnt1 dy0) dst with
    | none => simp
    | some dst1 =>
      simp only [Option.some_bind]
      exact ih _ (Nat.mod_lt _ W_pos) dst1

theorem fillLoop3_eq_runs (v : α) (dl : Nat → Nat → Nat → Nat)
    (len cnt1 dy0 cnt2 dz0 : Nat) (hy : dy0 < W) (hz : dz0 < W) :
    ∀ (cnt3 dw0 : Nat), dw0 < W → ∀ (dst : List α),
      fillLoop3 v dl len cnt1 dy0 cnt2 dz0 cnt3 dw0 dst =
        fillRuns v len (fplan3 dl cnt1 dy0 cnt2 dz0 cnt3 dw0) dst := by
  intro cnt3
  induction cnt3 with
  | zero => intro dw0 _ dst; simp [fillLoop3, fplan3, fillRuns]
  | succ n ih =>
    intro dw0 hw dst
    rw [fplan3_cons, Nat.mod_eq_of_lt hw, fillRuns_append]
    simp only [fillLoop3]
    rw [fillLoop2_eq_runs v _ len cnt1 dy0 hy cnt2 dz0 hz dst]
    cases fillRuns v len (fplan2 (fun y z => dl y z dw0) cnt1 dy0 cnt2 dz0) dst with
    | none => simp
    | some dst1 =>
      simp only [Option.some_bind]
      exact ih _ (Nat.mod_lt _ W_pos) dst1

theorem copy2_eq_runs {cs ss ds : Nat × Nat} {src dst : List α}
    {slin dlin : Nat → Nat → Nat} (hs : ss.2 < W) (hd : ds.2 < W) :
    copy2 cs src slin ss dst dlin ds =
      copyRuns src cs.1 (planCopy2 cs slin ss dlin ds) dst :=
  copyLoop1_eq_runs src _ _ cs.1 cs.2 ss.2 ds.2 hs hd dst

theorem copy3_eq_runs {cs ss ds : Nat × Nat × Nat} {src dst : List α}
    {slin dlin : Nat → Nat → Nat → Nat}
    (hs1 : ss.2.1 < W) (hd1 : ds.2.1 < W) (hs2 : ss.2.2 < W) (hd2 : ds.2.2 < W) :
    copy3 cs src slin ss dst dlin ds =
      copyRuns src cs.1 (planCopy3 cs slin ss dlin ds) dst :=
  copyLoop2_eq_runs src _ _ cs.1 cs.2.1 ss.2.1 ds.2.1 hs1 hd1 cs.2.2 ss.2.2 ds.2.2 hs2 hd2 dst

theorem copy4_eq_runs {cs ss ds : Nat × Nat × Nat × Nat} {src dst : List α}
    {slin dlin : Nat → Nat → Nat → Nat → Nat}
    (hs1 : ss.2.1 < W) (hd1 : ds.2.1 < W) (hs2 : ss.2.2.1 < W) (hd2 : ds.2.2.1 < W)
    (hs3 : ss.2.2.2 < W) (hd3 : ds.2.2.2 < W) :
    copy4 cs src slin ss dst dlin ds =
      copyRuns src cs.1 (planCopy4 cs slin ss dlin ds) dst :=
  copyLoop3_eq_runs src _ _ cs.1 cs.2.1 ss.2.1 ds.2.1 cs.2.2.1 ss.2.2.1 ds.2.2.1
    hs1 hd1 hs2 hd2 cs.2.2.2 ss.2.2.2 ds.2.2.2 hs3 hd3 dst

theorem fill2_eq_runs {fs ds : Nat × Nat} {v : α} {dst : List α}
    {dlin : Nat → Nat → Nat} (hd : ds.2 < W) :
    fill2 fs v dst dlin ds = fillRuns v fs.1 (planFill2 fs dlin ds) dst :=
  fillLoop1_eq_runs v _ fs.1 fs.2 ds.2 hd dst

theorem fill3_eq_runs {fs ds : Nat × Nat × Nat} {v : α} {dst : List α}
    {dlin : Nat → Nat → Nat → Nat} (hd1 : ds.2.1 < W) (hd2 : ds.2.2 < W) :
    fill3 fs v dst dlin ds = fillRuns v fs.1 (planFill3 fs dlin ds) dst :=
  fillLoop2_eq_runs v _ fs.1 fs.2.1 ds.2.1 hd1 fs.2.2 ds.2.2 hd2 dst

theorem fill4_eq_runs {fs ds : Nat × Nat × Nat × Nat} {v : α} {dst : List α}
    {dlin : Nat → Nat → Nat → Nat → Nat}
    (hd1 : ds.2.1 < W) (hd2 : ds.2.2.1 < W) (hd3 : ds.2.2.2 < W) :
    fill4 fs v dst dlin ds = fillRuns v fs.1 (planFill4 fs dlin ds) dst :=
  fillLoop3_eq_runs v _ fs.1 fs.2.1 ds.2.1 fs.2.2.1 ds.2.2.1 hd1 hd2
    fs.2.2.2 ds.2.2.2 hd3 dst

theorem mem_plan1 {sl dl : Nat → Nat} {cnt sy0 dy0 : Nat} {p : Nat × Nat} :
    p ∈ plan1 sl dl cnt sy0 dy0 ↔
      ∃ j, j < cnt ∧ (sl ((sy0 + j) % W), dl ((dy0 + j) % W)) = p := by
  simp [plan1, List.mem_map, List.mem_range]

theorem mem_plan2 {sl dl : Nat → Nat → Nat} {cnt1 sy0 dy0 cnt2 sz0 dz0 : Nat}
    {p : Nat × Nat} :
    p ∈ plan2 sl dl cnt1 sy0 dy0 cnt2 sz0 dz0 ↔
      ∃ k, k < cnt2 ∧ ∃ j, j < cnt1 ∧
        (sl ((sy0 + j) % W) ((sz0 + k) % W), dl ((dy0 + j) % W) ((dz0 + k) % W)) = p := by
  simp [plan2, List.mem_flatMap, mem_plan1, List.mem_range]

theorem mem_plan3 {sl dl : Nat → Nat → Nat → Nat}
    {cnt1 sy0 dy0 cnt2 sz0 dz0 cnt3 sw0 dw0 : Nat} {p : Nat × Nat} :
    p ∈ plan3 sl dl cnt1 sy0 dy0 cnt2 sz0 dz0 cnt3 sw0 dw0 ↔
      ∃ l, l < cnt3 ∧ ∃ k, k < cnt2 ∧ ∃ j, j < cnt1 ∧
        (sl ((sy0 + j) % W) ((sz0 + k) % W) ((sw0 + l) % W),
          dl ((dy0 + j) % W) ((dz0 + k) % W) ((dw0 + l) % W)) = p := by
  simp [plan3, List.mem_flatMap, mem_plan2, List.mem_range]

theorem mem_fplan1 {dl : Nat → Nat} {cnt dy0 : Nat} {d : Nat} :
    d ∈ fplan1 dl cnt dy0 ↔ ∃ j, j < cnt ∧ dl ((dy0 + j) % W) = d := by
  simp [fplan1, List.mem_map, List.mem_range]

theorem mem_fplan2 {dl : Nat → Nat → Nat} {cnt1 dy0 cnt2 dz0 : Nat} {d : Nat} :
    d ∈ fplan2 dl cnt1 dy0 cnt2 dz0 ↔
      ∃ k, k < cnt2 ∧ ∃ j, j < cnt1 ∧ dl ((dy0 + j) % W) ((dz0 + k) % W) = d := by
  simp [fplan2, List.mem_flatMap, mem_fplan1, List.mem_range]

theorem mem_fplan3 {dl : Nat → Nat → Nat → Nat} {cnt1 dy0 cnt2 dz0 cnt3 dw0 : Nat}
    {d : Nat} :
    d ∈ fplan3 dl cnt1 dy0 cnt2 dz0 cnt3 dw0 ↔
      ∃ l, l < cnt3 ∧ ∃ k, k < cnt2 ∧ ∃ j, j < cnt1 ∧
        dl ((dy0 + j) % W) ((dz0 + k) % W) ((dw0 + l) % W) = d := by
  simp [fplan3, List.mem_flatMap, mem_fplan2, List.mem_range]

theorem length_plan1 {sl dl : Nat → Nat} {cnt sy0 dy0 : Nat} :
    (plan1 sl dl cnt sy0 dy0).length = cnt := by
  simp [plan1]

theorem length_plan2 {sl dl : Nat → Nat → Nat} {cnt1 sy0 dy0 cnt2 : Nat} :
    ∀ sz0 dz0, (plan2 sl dl cnt1 sy0 dy0 cnt2 sz0 dz0).length = cnt1 * cnt2 := by
  induction cnt2 with
  | zero => intro _ _; simp [plan2]
  | succ n ih =>
    intro sz0 dz0
    rw [plan2_cons, List.length_append, length_plan1, ih]
    ring

theorem length_plan3 {sl dl : Nat → Nat → Nat → Nat}
    {cnt1 sy0 dy0 cnt2 sz0 dz0 cnt3 : Nat} :
    ∀ sw0 dw0, (plan3 sl dl cnt1 sy0 dy0 cnt2 sz0 dz0 cnt3 sw0 dw0).length =
      cnt1 * cnt2 * cnt3 := by
  induction cnt3 with
  | zero => intro _ _; simp [plan3]
  | succ n ih =>
    intro sw0 dw0
    rw [plan3_cons, List.length_append, length_plan2, ih]
    ring

theorem length_fplan1 {dl : Nat → Nat} {cnt dy0 : Nat} :
    (fplan1 dl cnt dy0).length = cnt := by
  simp [fplan1]

theorem length_fplan2 {dl : Nat → Nat → Nat} {cnt1 dy0 cnt2 : Nat} :
    ∀ dz0, (fplan2 dl cnt1 dy0 cnt2 dz0).length = cnt1 * cnt2 := by
  induction cnt2 with
  | zero => intro _; simp [fplan2]
  | succ n ih =>
    intro dz0
    rw [fplan2_cons, List.length_append, length_fplan1, ih]
    ring

theorem length_fplan3 {dl : Nat → Nat → Nat → Nat} {cnt1 dy0 cnt2 dz0 cnt3 : Nat} :
    ∀ dw0, (fplan3 dl cnt1 dy0 cnt2 dz0 cnt3 dw0).length = cnt1 * cnt2 * cnt3 := by
  induction cnt3 with
  | zero => intro _; simp [fplan3]
  | succ n ih =>
    intro dw0
    rw [fplan3_cons, List.length_append, length_fplan2, ih]
    ring

theorem mem_planCopy2 {cs ss ds : Nat × Nat} {slin dlin : Nat → Nat → Nat}
    (hs : rep2 ss cs) (hd : rep2 ds cs) {p : Nat × Nat} :
    p ∈ planCopy2 cs slin ss dlin ds ↔
      ∃ j, j < cs.2 ∧ (slin ss.1 (ss.2 + j), dlin ds.1 (ds.2 + j)) = p := by
  obtain ⟨hs1, hs2⟩ := hs
  obtain ⟨hd1, hd2⟩ := hd
  unfold planCopy2
  rw [mem_plan1]
  apply exists_congr
  intro j
  apply and_congr_right
  intro hj
  have e1 : (ss.2 + j) % W = ss.2 + j := Nat.mod_eq_of_lt (by omega)
  have e2 : (ds.2 + j) % W = ds.2 + j := Nat.mod_eq_of_lt (by omega)
  rw [e1, e2]

theorem mem_planFill2 {fs ds : Nat × Nat} {dlin : Nat → Nat → Nat}
    (hd : rep2 ds fs) {d : Nat} :
    d ∈ planFill2 fs dlin ds ↔ ∃ j, j < fs.2 ∧ dlin ds.1 (ds.2 + j) = d := by
  obtain ⟨hd1, hd2⟩ := hd
  unfold planFill2
  rw [mem_fplan1]
  apply exists_congr
  intro j
  apply and_congr_right
  intro hj
  have e2 : (ds.2 + j) % W = ds.2 + j := Nat.mod_eq_of_lt (by omega)
  rw [e2]

theorem copy2_values {cs ss ds : Nat × Nat} {src dst d : List α}
    {slin dlin : Nat → Nat → Nat}
    (hs : rep2 ss cs) (hd : rep2 ds cs)
    (hcs : contig2 slin ss cs) (hcd : contig2 dlin ds cs)
    (hinj : inj2 dlin ds cs)
    (h : copy2 cs src slin ss dst dlin ds = some d) :
    ∀ a, a < cs.1 → ∀ b, b < cs.2 →
      d[dlin (ds.1 + a) (ds.2 + b)]? = src[slin (ss.1 + a) (ss.2 + b)]? := by
  intro a ha b hb
  rw [copy2_eq_runs hs.1 hd.1] at h
  have hpmem : (slin ss.1 (ss.2 + b), dlin ds.1 (ds.2 + b)) ∈ planCopy2 cs slin ss dlin ds :=
    (mem_planCopy2 hs hd).mpr ⟨b, hb, rfl⟩
  have hidx : dlin (ds.1 + a) (ds.2 + b) = dlin ds.1 (ds.2 + b) + a := hcd a ha b hb
  have hhit : hits cs.1 (dlin (ds.1 + a) (ds.2 + b)) (dlin ds.1 (ds.2 + b)) :=
    ⟨by omega, by omega⟩
  have huniq : ∀ q ∈ planCopy2 cs slin ss dlin ds,
      hits cs.1 (dlin (ds.1 + a) (ds.2 + b)) q.2 →
      q = (slin ss.1 (ss.2 + b), dlin ds.1 (ds.2 + b)) := by
    intro q hq hqh
    obtain ⟨j, hj, hqe⟩ := (mem_planCopy2 hs hd).mp hq
    subst hqe
    obtain ⟨hq1, hq2⟩ := hqh
    simp only at hq1 hq2
    have ho1 : dlin (ds.1 + a) (ds.2 + b) - dlin ds.1 (ds.2 + j) < cs.1 := by omega
    have hco : dlin (ds.1 + a) (ds.2 + b) =
        dlin (ds.1 + (dlin (ds.1 + a) (ds.2 + b) - dlin ds.1 (ds.2 + j))) (ds.2 + j) := by
      rw [hcd _ ho1 j hj]
      omega
    obtain ⟨-, hbj⟩ := hinj a ha b hb _ ho1 j hj hco
    subst hbj
    rfl
  have hv := copyRuns_value h hpmem hhit huniq
  simp only at hv
  have harith : slin ss.1 (ss.2 + b) +
      (dlin (ds.1 + a) (ds.2 + b) - dlin ds.1 (ds.2 + b)) = slin ss.1 (ss.2 + b) + a := by
    omega
  rw [hv, harith, ← hcs a ha b hb]

theorem copy2_frame {cs ss ds : Nat × Nat} {src dst d : List α}
    {slin dlin : Nat → Nat → Nat} (hs1 : ss.2 < W) (hd1 : ds.2 < W)
    (h : copy2 cs src slin ss dst dlin ds = some d) (i : Nat)
    (hout : ∀ p ∈ planCopy2 cs slin ss dlin ds, ¬ hits cs.1 i p.2) :
    d[i]? = dst[i]? := by
  rw [copy2_eq_runs hs1 hd1] at h
  exact copyRuns_frame h hout

theorem copy2_complete {cs ss ds : Nat × Nat} {src dst : List α}
    {slin dlin : Nat → Nat → Nat}
    (hs : rep2 ss cs) (hd : rep2 ds cs)
    (hbs : inB2 slin ss cs src.length) (hbd : inB2 dlin ds cs dst.length)
    (hcs : contig2 slin ss cs) (hcd : contig2 dlin ds cs) (hpos : 0 < cs.1) :
    (∀ p ∈ planCopy2 cs slin ss dlin ds,
        p.1 + cs.1 ≤ src.length ∧ p.2 + cs.1 ≤ dst.length) ∧
      ∃ d, copy2 cs src slin ss dst dlin ds = some d := by
  have hb : ∀ p ∈ planCopy2 cs slin ss dlin ds,
      p.1 + cs.1 ≤ src.length ∧ p.2 + cs.1 ≤ dst.length := by
    intro p hp
    obtain ⟨j, hj, hpe⟩ := (mem_planCopy2 hs hd).mp hp
    subst hpe
    have h1 := hbs (cs.1 - 1) (by omega) j hj
    have h2 := hcs (cs.1 - 1) (by omega) j hj
    have h3 := hbd (cs.1 - 1) (by omega) j hj
    have h4 := hcd (cs.1 - 1) (by omega) j hj
    exact ⟨by omega, by omega⟩
  refine ⟨hb, ?_⟩
  rw [copy2_eq_runs hs.1 hd.1]
  exact Option.isSome_iff_exists.mp (copyRuns_isSome_iff.mpr hb)

theorem copy2_rowZero_iff {cs ss ds : Nat × Nat} {src dst : List α}
    {slin dlin : Nat → Nat → Nat}
    (hs : rep2 ss cs) (hd : rep2 ds cs) (h0 : cs.1 = 0) :
    copy2 cs src slin ss dst dlin ds = some dst ↔
      ∀ j, j < cs.2 →
        slin ss.1 (ss.2 + j) ≤ src.length ∧ dlin ds.1 (ds.2 + j) ≤ dst.length := by
  rw [copy2_eq_runs hs.1 hd.1]
  constructor
  · intro h j hj
    have hsome : (copyRuns src cs.1 (planCopy2 cs slin ss dlin ds) dst).isSome := by
      rw [h]
      rfl
    have hb := copyRuns_isSome_iff.mp hsome (slin ss.1 (ss.2 + j), dlin ds.1 (ds.2 + j))
      ((mem_planCopy2 hs hd).mpr ⟨j, hj, rfl⟩)
    simp only at hb
    omega
  · intro hb
    rw [h0]
    apply copyRuns_zeroLen_of
    intro p hp
    obtain ⟨j, hj, hpe⟩ := (mem_planCopy2 hs hd).mp hp
    subst hpe
    exact ⟨(hb j hj).1, (hb j hj).2⟩

theorem copy2_outerZero {cs ss ds : Nat × Nat} {src dst : List α}
    {slin dlin : Nat → Nat → Nat} (h0 : cs.2 = 0) :
    copy2 cs src slin ss dst dlin ds = some dst := by
  unfold copy2
  rw [h0]
  rfl

theorem fill2_values {fs ds : Nat × Nat} {v : α} {dst d : List α}
    {dlin : Nat → Nat → Nat}
    (hd : rep2 ds fs) (hcd : contig2 dlin ds fs)
    (h : fill2 fs v dst dlin ds = some d) :
    ∀ a, a < fs.1 → ∀ b, b < fs.2 → d[dlin (ds.1 + a) (ds.2 + b)]? = some v := by
  intro a ha b hb
  rw [fill2_eq_runs hd.1] at h
  apply fillRuns_value h
  refine ⟨dlin ds.1 (ds.2 + b), (mem_planFill2 hd).mpr ⟨b, hb, rfl⟩, ?_⟩
  have hidx := hcd a ha b hb
  exact ⟨by omega, by omega⟩

theorem fill2_frame {fs ds : Nat × Nat} {v : α} {dst d : List α}
    {dlin : Nat → Nat → Nat} (hd1 : ds.2 < W)
    (h : fill2 fs v dst dlin ds = some d) (i : Nat)
    (hout : ∀ q ∈ planFill2 fs dlin ds, ¬ hits fs.1 i q) :
    d[i]? = dst[i]? := by
  rw [fill2_eq_runs hd1] at h
  exact fillRuns_frame h hout

theorem fill2_complete {fs ds : Nat × Nat} {v : α} {dst : List α}
    {dlin : Nat → Nat → Nat}
    (hd : rep2 ds fs) (hbd : inB2 dlin ds fs dst.length)
    (hcd : contig2 dlin ds fs) (hpos : 0 < fs.1) :
    (∀ q ∈ planFill2 fs dlin ds, q + fs.1 ≤ dst.length) ∧
      ∃ d, fill2 fs v dst dlin ds = some d := by
  have hb : ∀ q ∈ planFill2 fs dlin ds, q + fs.1 ≤ dst.length := by
    intro q hq
    obtain ⟨j, hj, hqe⟩ := (mem_planFill2 hd).mp hq
    subst hqe
    have h3 := hbd (fs.1 - 1) (by omega) j hj
    have h4 := hcd (fs.1 - 1) (by omega) j hj
    omega
  refine ⟨hb, ?_⟩
  rw [fill2_eq_runs hd.1]
  exact Option.isSome_iff_exists.mp (fillRuns_isSome_iff.mpr hb)

theorem fill2_rowZero_iff {fs ds : Nat × Nat} {v : α} {dst : List α}
    {dlin : Nat → Nat → Nat} (hd : rep2 ds fs) (h0 : fs.1 = 0) :
    fill2 fs v dst dlin ds = some dst ↔
      ∀ j, j < fs.2 → dlin ds.1 (ds.2 + j) ≤ dst.length := by
  rw [fill2_eq_runs hd.1]
  constructor
  · intro h j hj
    have hsome : (fillRuns v fs.1 (planFill2 fs dlin ds) dst).isSome := by
      rw [h]
      rfl
    have hb := fillRuns_isSome_iff.mp hsome (dlin ds.1 (ds.2 + j))
      ((mem_planFill2 hd).mpr ⟨j, hj, rfl⟩)
    omega
  · intro hb
    rw [h0]
    apply fillRuns_zeroLen_of
    intro q hq
    obtain ⟨j, hj, hqe⟩ := (mem_planFill2 hd).mp hq
    subst hqe
    exact hb j hj

theorem fill2_outerZero {fs ds : Nat × Nat} {v : α} {dst : List α}
    {dlin : Nat → Nat → Nat} (h0 : fs.2 = 0) :
    fill2 fs v dst dlin ds = some dst := by
  unfold fill2
  rw [h0]
  rfl

theorem mem_planCopy3 {cs ss ds : Nat × Nat × Nat} {slin dlin : Nat → Nat → Nat → Nat}
    (hs : rep3 ss cs) (hd : rep3 ds cs) {p : Nat × Nat} :
    p ∈ planCopy3 cs slin ss dlin ds ↔
      ∃ k, k < cs.2.2 ∧ ∃ j, j < cs.2.1 ∧
        (slin ss.1 (ss.2.1 + j) (ss.2.2 + k), dlin ds.1 (ds.2.1 + j) (ds.2.2 + k)) = p := by
  obtain ⟨hs1, hs2, hs3, hs4⟩ := hs
  obtain ⟨hd1, hd2, hd3, hd4⟩ := hd
  unfold planCopy3
  rw [mem_plan2]
  apply exists_congr
  intro k
  apply and_congr_right
  intro hk
  apply exists_congr
  intro j
  apply and_congr_right
  intro hj
  have e1 : (ss.2.1 + j) % W = ss.2.1 + j := Nat.mod_eq_of_lt (by omega)
  have e2 : (ds.2.1 + j) % W = ds.2.1 + j := Nat.mod_eq_of_lt (by omega)
  have e3 : (ss.2.2 + k) % W = ss.2.2 + k := Nat.mod_eq_of_lt (by omega)
  have e4 : (ds.2.2 + k) % W = ds.2.2 + k := Nat.mod_eq_of_lt (by omega)
  rw [e1, e2, e3, e4]

theorem mem_planFill3 {fs ds : Nat × Nat × Nat} {dlin : Nat → Nat → Nat → Nat}
    (hd : rep3 ds fs) {d : Nat} :
    d ∈ planFill3 fs dlin ds ↔
      ∃ k, k < fs.2.2 ∧ ∃ j, j < fs.2.1 ∧ dlin ds.1 (ds.2.1 + j) (ds.2.2 + k) = d := by
  obtain ⟨hd1, hd2, hd3, hd4⟩ := hd
  unfold planFill3
  rw [mem_fplan2]
  apply exists_congr
  intro k
  apply and_congr_right
  intro hk
  apply exists_congr
  intro j
  apply and_congr_right
  intro hj
  have e2 : (ds.2.1 + j) % W = ds.2.1 + j := Nat.mod_eq_of_lt (by omega)
  have e4 : (ds.2.2 + k) % W = ds.2.2 + k := Nat.mod_eq_of_lt (by omega)
  rw [e2, e4]

theorem copy3_values {cs ss ds : Nat × Nat × Nat} {src dst d : List α}
    {slin dlin : Nat → Nat → Nat → Nat}
    (hs : rep3 ss cs) (hd : rep3 ds cs)
    (hcs : contig3 slin ss cs) (hcd : contig3 dlin ds cs)
    (hinj : inj3 dlin ds cs)
    (h : copy3 cs src slin ss dst dlin ds = some d) :
    ∀ a, a < cs.1 → ∀ b, b < cs.2.1 → ∀ c, c < cs.2.2 →
      d[dlin (ds.1 + a) (ds.2.1 + b) (ds.2.2 + c)]? =
        src[slin (ss.1 + a) (ss.2.1 + b) (ss.2.2 + c)]? := by
  intro a ha b hb c hc
  rw [copy3_eq_runs hs.1 hd.1 hs.2.2.1 hd.2.2.1] at h
  have hpmem : (slin ss.1 (ss.2.1 + b) (ss.2.2 + c), dlin ds.1 (ds.2.1 + b) (ds.2.2 + c)) ∈
      planCopy3 cs slin ss dlin ds :=
    (mem_planCopy3 hs hd).mpr ⟨c, hc, b, hb, rfl⟩
  have hidx : dlin (ds.1 + a) (ds.2.1 + b) (ds.2.2 + c) =
      dlin ds.1 (ds.2.1 + b) (ds.2.2 + c) + a := hcd a ha b hb c hc
  have hhit : hits cs.1 (dlin (ds.1 + a) (ds.2.1 + b) (ds.2.2 + c))
      (dlin ds.1 (ds.2.1 + b) (ds.2.2 + c)) := ⟨by omega, by omega⟩
  have huniq : ∀ q ∈ planCopy3 cs slin ss dlin ds,
      hits cs.1 (dlin (ds.1 + a) (ds.2.1 + b) (ds.2.2 + c)) q.2 →
      q = (slin ss.1 (ss.2.1 + b) (ss.2.2 + c), dlin ds.1 (ds.2.1 + b) (ds.2.2 + c)) := by
    intro q hq hqh
    obtain ⟨k, hk, j, hj, hqe⟩ := (mem_planCopy3 hs hd).mp hq
    subst hqe
    obtain ⟨hq1, hq2⟩ := hqh
    simp only at hq1 hq2
    have ho1 : dlin (ds.1 + a) (ds.2.1 + b) (ds.2.2 + c) -
        dlin ds.1 (ds.2.1 + j) (ds.2.2 + k) < cs.1 := by omega
    have hco : dlin (ds.1 + a) (ds.2.1 + b) (ds.2.2 + c) =
        dlin (ds.1 + (dlin (ds.1 + a) (ds.2.1 + b) (ds.2.2 + c) -
          dlin ds.1 (ds.2.1 + j) (ds.2.2 + k))) (ds.2.1 + j) (ds.2.2 + k) := by
      rw [hcd _ ho1 j hj k hk]
      omega
    obtain ⟨-, hbj, hck⟩ := hinj a ha b hb c hc _ ho1 j hj k hk hco
    subst hbj
    subst hck
    rfl
  have hv := copyRuns_value h hpmem hhit huniq
  simp only at hv
  have harith : slin ss.1 (ss.2.1 + b) (ss.2.2 + c) +
      (dlin (ds.1 + a) (ds.2.1 + b) (ds.2.2 + c) - dlin ds.1 (ds.2.1 + b) (ds.2.2 + c)) =
      slin ss.1 (ss.2.1 + b) (ss.2.2 + c) + a := by
    omega
  rw [hv, harith, ← hcs a ha b hb c hc]

theorem copy3_frame {cs ss ds : Nat × Nat × Nat} {src dst d : List α}
    {slin dlin : Nat → Nat → Nat → Nat}
    (hs1 : ss.2.1 < W) (hd1 : ds.2.1 < W) (hs2 : ss.2.2 < W) (hd2 : ds.2.2 < W)
    (h : copy3 cs src slin ss dst dlin ds = some d) (i : Nat)
    (hout : ∀ p ∈ planCopy3 cs slin ss dlin ds, ¬ hits cs.1 i p.2) :
    d[i]? = dst[i]? := by
  rw [copy3_eq_runs hs1 hd1 hs2 hd2] at h
  exact copyRuns_frame h hout

theorem copy3_complete {cs ss ds : Nat × Nat × Nat} {src dst : List α}
    {slin dlin : Nat → Nat → Nat → Nat}
    (hs : rep3 ss cs) (hd : rep3 ds cs)
    (hbs : inB3 slin ss cs src.length) (hbd : inB3 dlin ds cs dst.length)
    (hcs : contig3 slin ss cs) (hcd : contig3 dlin ds cs) (hpos : 0 < cs.1) :
    (∀ p ∈ planCopy3 cs slin ss dlin ds,
        p.1 + cs.1 ≤ src.length ∧ p.2 + cs.1 ≤ dst.length) ∧
      ∃ d, copy3 cs src slin ss dst dlin ds = some d := by
  have hb : ∀ p ∈ planCopy3 cs slin ss dlin ds,
      p.1 + cs.1 ≤ src.length ∧ p.2 + cs.1 ≤ dst.length := by
    intro p hp
    obtain ⟨k, hk, j, hj, hpe⟩ := (mem_planCopy3 hs hd).mp hp
    subst hpe
    have h1 := hbs (cs.1 - 1) (by omega) j hj k hk
    have h2 := hcs (cs.1 - 1) (by omega) j hj k hk
    have h3 := hbd (cs.1 - 1) (by omega) j hj k hk
    have h4 := hcd (cs.1 - 1) (by omega) j hj k hk
    exact ⟨by omega, by omega⟩
  refine ⟨hb, ?_⟩
  rw [copy3_eq_runs hs.1 hd.1 hs.2.2.1 hd.2.2.1]
  exact Option.isSome_iff_exists.mp (copyRuns_isSome_iff.mpr hb)

theorem copy3_rowZero_iff {cs ss ds : Nat × Nat × Nat} {src dst : List α}
    {slin dlin : Nat → Nat → Nat → Nat}
    (hs : rep3 ss cs) (hd : rep3 ds cs) (h0 : cs.1 = 0) :
    copy3 cs src slin ss dst dlin ds = some dst ↔
      ∀ j, j < cs.2.1 → ∀ k, k < cs.2.2 →
        slin ss.1 (ss.2.1 + j) (ss.2.2 + k) ≤ src.length ∧
          dlin ds.1 (ds.2.1 + j) (ds.2.2 + k) ≤ dst.length := by
  rw [copy3_eq_runs hs.1 hd.1 hs.2.2.1 hd.2.2.1]
  constructor
  · intro h j hj k hk
    have hsome : (copyRuns src cs.1 (planCopy3 cs slin ss dlin ds) dst).isSome := by
      rw [h]
      rfl
    have hb := copyRuns_isSome_iff.mp hsome
      (slin ss.1 (ss.2.1 + j) (ss.2.2 + k), dlin ds.1 (ds.2.1 + j) (ds.2.2 + k))
      ((mem_planCopy3 hs hd).mpr ⟨k, hk, j, hj, rfl⟩)
    simp only at hb
    omega
  · intro hb
    rw [h0]
    apply copyRuns_zeroLen_of
    intro p hp
    obtain ⟨k, hk, j, hj, hpe⟩ := (mem_planCopy3 hs hd).mp hp
    subst hpe
    exact ⟨(hb j hj k hk).1, (hb j hj k hk).2⟩

theorem copyLoop2_cnt1_zero (src : List α) (sl dl : Nat → Nat → Nat) (len sy0 dy0 : Nat) :
    ∀ (n sz dz : Nat) (dst : List α),
      copyLoop2 src sl dl len 0 sy0 dy0 n sz dz dst = some dst := by
  intro n
  induction n with
  | zero => intro _ _ _; rfl
  | succ m ih =>
    intro sz dz dst
    simp only [copyLoop2, copyLoop1, Option.some_bind]
    exact ih _ _ dst

theorem copy3_outerZero {cs ss ds : Nat × Nat × Nat} {src dst : List α}
    {slin dlin : Nat → Nat → Nat → Nat} (h0 : cs.2.1 = 0 ∨ cs.2.2 = 0) :
    copy3 cs src slin ss dst dlin ds = some dst := by
  unfold copy3
  rcases h0 with h0 | h0
  · rw [h0]
    exact copyLoop2_cnt1_zero src _ _ cs.1 ss.2.1 ds.2.1 cs.2.2 ss.2.2 ds.2.2 dst
  · rw [h0]
    rfl

theorem fill3_values {fs ds : Nat × Nat × Nat} {v : α} {dst d : List α}
    {dlin : Nat → Nat → Nat → Nat}
    (hd : rep3 ds fs) (hcd : contig3 dlin ds fs)
    (h : fill3 fs v dst dlin ds = some d) :
    ∀ a, a < fs.1 → ∀ b, b < fs.2.1 → ∀ c, c < fs.2.2 →
      d[dlin (ds.1 + a) (ds.2.1 + b) (ds.2.2 + c)]? = some v := by
  intro a ha b hb c hc
  rw [fill3_eq_runs hd.1 hd.2.2.1] at h
  apply fillRuns_value h
  refine ⟨dlin ds.1 (ds.2.1 + b) (ds.2.2 + c), (mem_planFill3 hd).mpr ⟨c, hc, b, hb, rfl⟩, ?_⟩
  have hidx := hcd a ha b hb c hc
  exact ⟨by omega, by omega⟩

theorem fill3_frame {fs ds : Nat × Nat × Nat} {v : α} {dst d : List α}
    {dlin : Nat → Nat → Nat → Nat} (hd1 : ds.2.1 < W) (hd2 : ds.2.2 < W)
    (h : fill3 fs v dst dlin ds = some d) (i : Nat)
    (hout : ∀ q ∈ planFill3 fs dlin ds, ¬ hits fs.1 i q) :
    d[i]? = dst[i]? := by
  rw [fill3_eq_runs hd1 hd2] at h
  exact fillRuns_frame h hout

theorem fill3_complete {fs ds : Nat × Nat × Nat} {v : α} {dst : List α}
    {dlin : Nat → Nat → Nat → Nat}
    (hd : rep3 ds fs) (hbd : inB3 dlin ds fs dst.length)
    (hcd : contig3 dlin ds fs) (hpos : 0 < fs.1) :
    (∀ q ∈ planFill3 fs dlin ds, q + fs.1 ≤ dst.length) ∧
      ∃ d, fill3 fs v dst dlin ds = some d := by
  have hb : ∀ q ∈ planFill3 fs dlin ds, q + fs.1 ≤ dst.length := by
    intro q hq
    obtain ⟨k, hk, j, hj, hqe⟩ := (mem_planFill3 hd).mp hq
    subst hqe
    have h3 := hbd (fs.1 - 1) (by omega) j hj k hk
    have h4 := hcd (fs.1 - 1) (by omega) j hj k hk
    omega
  refine ⟨hb, ?_⟩
  rw [fill3_eq_runs hd.1 hd.2.2.1]
  exact Option.isSome_iff_exists.mp (fillRuns_isSome_iff.mpr hb)

theorem fill3_rowZero_iff {fs ds : Nat × Nat × Nat} {v : α} {dst : List α}
    {dlin : Nat → Nat → Nat → Nat} (hd : rep3 ds fs) (h0 : fs.1 = 0) :
    fill3 fs v dst dlin ds = some dst ↔
      ∀ j, j < fs.2.1 → ∀ k, k < fs.2.2 → dlin ds.1 (ds.2.1 + j) (ds.2.2 + k) ≤ dst.length := by
  rw [fill3_eq_runs hd.1 hd.2.2.1]
  constructor
  · intro h j hj k hk
    have hsome : (fillRuns v fs.1 (planFill3 fs dlin ds) dst).isSome := by
      rw [h]
      rfl
    have hb := fillRuns_isSome_iff.mp hsome (dlin ds.1 (ds.2.1 + j) (ds.2.2 + k))
      ((mem_planFill3 hd).mpr ⟨k, hk, j, hj, rfl⟩)
    omega
  · intro hb
    rw [h0]
    apply fillRuns_zeroLen_of
    intro q hq
    obtain ⟨k, hk, j, hj, hqe⟩ := (mem_planFill3 hd).mp hq
    subst hqe
    exact hb j hj k hk

theorem fillLoop2_cnt1_zero (v : α) (dl : Nat → Nat → Nat) (len dy0 : Nat) :
    ∀ (n dz : Nat) (dst : List α),
      fillLoop2 v dl len 0 dy0 n dz dst = some dst := by
  intro n
  induction n with
  | zero => intro _ _; rfl
  | succ m ih =>
    intro dz dst
    simp only [fillLoop2, fillLoop1, Option.some_bind]
    exact ih _ dst

theorem fill3_outerZero {fs ds : Nat × Nat × Nat} {v : α} {dst : List α}
    {dlin : Nat → Nat → Nat → Nat} (h0 : fs.2.1 = 0 ∨ fs.2.2 = 0) :
    fill3 fs v dst dlin ds = some dst := by
  unfold fill3
  rcases h0 with h0 | h0
  · rw [h0]
    exact fillLoop2_cnt1_zero v _ fs.1 ds.2.1 fs.2.2 ds.2.2 dst
  · rw [h0]
    rfl

theorem mem_planCopy4 {cs ss ds : Nat × Nat × Nat × Nat}
    {slin dlin : Nat → Nat → Nat → Nat → Nat}
    (hs : rep4 ss cs) (hd : rep4 ds cs) {p : Nat × Nat} :
    p ∈ planCopy4 cs slin ss dlin ds ↔
      ∃ l, l < cs.2.2.2 ∧ ∃ k, k < cs.2.2.1 ∧ ∃ j, j < cs.2.1 ∧
        (slin ss.1 (ss.2.1 + j) (ss.2.2.1 + k) (ss.2.2.2 + l),
          dlin ds.1 (ds.2.1 + j) (ds.2.2.1 + k) (ds.2.2.2 + l)) = p := by
  obtain ⟨hs1, hs2, hs3, hs4, hs5, hs6⟩ := hs
  obtain ⟨hd1, hd2, hd3, hd4, hd5, hd6⟩ := hd
  unfold planCopy4
  rw [mem_plan3]
  apply exists_congr
  intro l
  apply and_congr_right
  intro hl
  apply exists_congr
  intro k
  apply and_congr_right
  intro hk
  apply exists_congr
  intro j
  apply and_congr_right
  intro hj
  have e1 : (ss.2.1 + j) % W = ss.2.1 + j := Nat.mod_eq_of_lt (by omega)
  have e2 : (ds.2.1 + j) % W = ds.2.1 + j := Nat.mod_eq_of_lt (by omega)
  have e3 : (ss.2.2.1 + k) % W = ss.2.2.1 + k := Nat.mod_eq_of_lt (by omega)
  have e4 : (ds.2.2.1 + k) % W = ds.2.2.1 + k := Nat.mod_eq_of_lt (by omega)
  have e5 : (ss.2.2.2 + l) % W = ss.2.2.2 + l := Nat.mod_eq_of_lt (by omega)
  have e6 : (ds.2.2.2 + l) % W = ds.2.2.2 + l := Nat.mod_eq_of_lt (by omega)
  rw [e1, e2, e3, e4, e5, e6]

theorem mem_planFill4 {fs ds : Nat × Nat × Nat × Nat} {dlin : Nat → Nat → Nat → Nat → Nat}
    (hd : rep4 ds fs) {d : Nat} :
    d ∈ planFill4 fs dlin ds ↔
      ∃ l, l < fs.2.2.2 ∧ ∃ k, k < fs.2.2.1 ∧ ∃ j, j < fs.2.1 ∧
        dlin ds.1 (ds.2.1 + j) (ds.2.2.1 + k) (ds.2.2.2 + l) = d := by
  obtain ⟨hd1, hd2, hd3, hd4, hd5, hd6⟩ := hd
  unfold planFill4
  rw [mem_fplan3]
  apply exists_congr
  intro l
  apply and_congr_right
  intro hl
  apply exists_congr
  intro k
  apply and_congr_right
  intro hk
  apply exists_congr
  intro j
  apply and_congr_right
  intro hj
  have e2 : (ds.2.1 + j) % W = ds.2.1 + j := Nat.mod_eq_of_lt (by omega)
  have e4 : (ds.2.2.1 + k) % W = ds.2.2.1 + k := Nat.mod_eq_of_lt (by omega)
  have e6 : (ds.2.2.2 + l) % W = ds.2.2.2 + l := Nat.mod_eq_of_lt (by omega)
  rw [e2, e4, e6]

theorem copy4_values {cs ss ds : Nat × Nat × Nat × Nat} {src dst d : List α}
    {slin dlin : Nat → Nat → Nat → Nat → Nat}
    (hs : rep4 ss cs) (hd : rep4 ds cs)
    (hcs : contig4 slin ss cs) (hcd : contig4 dlin ds cs)
    (hinj : inj4 dlin ds cs)
    (h : copy4 cs src slin ss dst dlin ds = some d) :
    ∀ a, a < cs.1 → ∀ b, b < cs.2.1 → ∀ c, c < cs.2.2.1 → ∀ e, e < cs.2.2.2 →
      d[dlin (ds.1 + a) (ds.2.1 + b) (ds.2.2.1 + c) (ds.2.2.2 + e)]? =
        src[slin (ss.1 + a) (ss.2.1 + b) (ss.2.2.1 + c) (ss.2.2.2 + e)]? := by
  intro a ha b hb c hc e he
  rw [copy4_eq_runs hs.1 hd.1 hs.2.2.1 hd.2.2.1 hs.2.2.2.2.1 hd.2.2.2.2.1] at h
  have hpmem : (slin ss.1 (ss.2.1 + b) (ss.2.2.1 + c) (ss.2.2.2 + e),
      dlin ds.1 (ds.2.1 + b) (ds.2.2.1 + c) (ds.2.2.2 + e)) ∈
      planCopy4 cs slin ss dlin ds :=
    (mem_planCopy4 hs hd).mpr ⟨e, he, c, hc, b, hb, rfl⟩
  have hidx : dlin (ds.1 + a) (ds.2.1 + b) (ds.2.2.1 + c) (ds.2.2.2 + e) =
      dlin ds.1 (ds.2.1 + b) (ds.2.2.1 + c) (ds.2.2.2 + e) + a := hcd a ha b hb c hc e he
  have hhit : hits cs.1 (dlin (ds.1 + a) (ds.2.1 + b) (ds.2.2.1 + c) (ds.2.2.2 + e))
      (dlin ds.1 (ds.2.1 + b) (ds.2.2.1 + c) (ds.2.2.2 + e)) := ⟨by omega, by omega⟩
  have huniq : ∀ q ∈ planCopy4 cs slin ss dlin ds,
      hits cs.1 (dlin (ds.1 + a) (ds.2.1 + b) (ds.2.2.1 + c) (ds.2.2.2 + e)) q.2 →
      q = (slin ss.1 (ss.2.1 + b) (ss.2.2.1 + c) (ss.2.2.2 + e),
        dlin ds.1 (ds.2.1 + b) (ds.2.2.1 + c) (ds.2.2.2 + e)) := by
    intro q hq hqh
    obtain ⟨l, hl, k, hk, j, hj, hqe⟩ := (mem_planCopy4 hs hd).mp hq
    subst hqe
    obtain ⟨hq1, hq2⟩ := hqh
    simp only at hq1 hq2
    have ho1 : dlin (ds.1 + a) (ds.2.1 + b) (ds.2.2.1 + c) (ds.2.2.2 + e) -
        dlin ds.1 (ds.2.1 + j) (ds.2.2.1 + k) (ds.2.2.2 + l) < cs.1 := by omega
    have hco : dlin (ds.1 + a) (ds.2.1 + b) (ds.2.2.1 + c) (ds.2.2.2 + e) =
        dlin (ds.1 + (dlin (ds.1 + a) (ds.2.1 + b) (ds.2.2.1 + c) (ds.2.2.2 + e) -
          dlin ds.1 (ds.2.1 + j) (ds.2.2.1 + k) (ds.2.2.2 + l)))
          (ds.2.1 + j) (ds.2.2.1 + k) (ds.2.2.2 + l) := by
      rw [hcd _ ho1 j hj k hk l hl]
      omega
    obtain ⟨-, hbj, hck, hel⟩ := hinj a ha b hb c hc e he _ ho1 j hj k hk l hl hco
    subst hbj
    subst hck
    subst hel
    rfl
  have hv := copyRuns_value h hpmem hhit huniq
  simp only at hv
  have harith : slin ss.1 (ss.2.1 + b) (ss.2.2.1 + c) (ss.2.2.2 + e) +
      (dlin (ds.1 + a) (ds.2.1 + b) (ds.2.2.1 + c) (ds.2.2.2 + e) -
        dlin ds.1 (ds.2.1 + b) (ds.2.2.1 + c) (ds.2.2.2 + e)) =
      slin ss.1 (ss.2.1 + b) (ss.2.2.1 + c) (ss.2.2.2 + e) + a := by
    omega
  rw [hv, harith, ← hcs a ha b hb c hc e he]

theorem copy4_frame {cs ss ds : Nat × Nat × Nat × Nat} {src dst d : List α}
    {slin dlin : Nat → Nat → Nat → Nat → Nat}
    (hs1 : ss.2.1 < W) (hd1 : ds.2.1 < W) (hs2 : ss.2.2.1 < W) (hd2 : ds.2.2.1 < W)
    (hs3 : ss.2.2.2 < W) (hd3 : ds.2.2.2 < W)
    (h : copy4 cs src slin ss dst dlin ds = some d) (i : Nat)
    (hout : ∀ p ∈ planCopy4 cs slin ss dlin ds, ¬ hits cs.1 i p.2) :
    d[i]? = dst[i]? := by
  rw [copy4_eq_runs hs1 hd1 hs2 hd2 hs3 hd3] at h
  exact copyRuns_frame h hout

theorem copy4_complete {cs ss ds : Nat × Nat × Nat × Nat} {src dst : List α}
    {slin dlin : Nat → Nat → Nat → Nat → Nat}
    (hs : rep4 ss cs) (hd : rep4 ds cs)
    (hbs : inB4 slin ss cs src.length) (hbd : inB4 dlin ds cs dst.length)
    (hcs : contig4 slin ss cs) (hcd : contig4 dlin ds cs) (hpos : 0 < cs.1) :
    (∀ p ∈ planCopy4 cs slin ss dlin ds,
        p.1 + cs.1 ≤ src.length ∧ p.2 + cs.1 ≤ dst.length) ∧
      ∃ d, copy4 cs src slin ss dst dlin ds = some d := by
  have hb : ∀ p ∈ planCopy4 cs slin ss dlin ds,
      p.1 + cs.1 ≤ src.length ∧ p.2 + cs.1 ≤ dst.length := by
    intro p hp
    obtain ⟨l, hl, k, hk, j, hj, hpe⟩ := (mem_planCopy4 hs hd).mp hp
    subst hpe
    have h1 := hbs (cs.1 - 1) (by omega) j hj k hk l hl
    have h2 := hcs (cs.1 - 1) (by omega) j hj k hk l hl
    have h3 := hbd (cs.1 - 1) (by omega) j hj k hk l hl
    have h4 := hcd (cs.1 - 1) (by omega) j hj k hk l hl
    exact ⟨by omega, by omega⟩
  refine ⟨hb, ?_⟩
  rw [copy4_eq_runs hs.1 hd.1 hs.2.2.1 hd.2.2.1 hs.2.2.2.2.1 hd.2.2.2.2.1]
  exact Option.isSome_iff_exists.mp (copyRuns_isSome_iff.mpr hb)

theorem copy4_rowZero_iff {cs ss ds : Nat × Nat × Nat × Nat} {src dst : List α}
    {slin dlin : Nat → Nat → Nat → Nat → Nat}
    (hs : rep4 ss cs) (hd : rep4 ds cs) (h0 : cs.1 = 0) :
    copy4 cs src slin ss dst dlin ds = some dst ↔
      ∀ j, j < cs.2.1 → ∀ k, k < cs.2.2.1 → ∀ l, l < cs.2.2.2 →
        slin ss.1 (ss.2.1 + j) (ss.2.2.1 + k) (ss.2.2.2 + l) ≤ src.length ∧
          dlin ds.1 (ds.2.1 + j) (ds.2.2.1 + k) (ds.2.2.2 + l) ≤ dst.length := by
  rw [copy4_eq_runs hs.1 hd.1 hs.2.2.1 hd.2.2.1 hs.2.2.2.2.1 hd.2.2.2.2.1]
  constructor
  · intro h j hj k hk l hl
    have hsome : (copyRuns src cs.1 (planCopy4 cs slin ss dlin ds) dst).isSome := by
      rw [h]
      rfl
    have hb := copyRuns_isSome_iff.mp hsome
      (slin ss.1 (ss.2.1 + j) (ss.2.2.1 + k) (ss.2.2.2 + l),
        dlin ds.1 (ds.2.1 + j) (ds.2.2.1 + k) (ds.2.2.2 + l))
      ((mem_planCopy4 hs hd).mpr ⟨l, hl, k, hk, j, hj, rfl⟩)
    simp only at hb
    omega
  · intro hb
    rw [h0]
    apply copyRuns_zeroLen_of
    intro p hp
    obtain ⟨l, hl, k, hk, j, hj, hpe⟩ := (mem_planCopy4 hs hd).mp hp
    subst hpe
    exact ⟨(hb j hj k hk l hl).1, (hb j hj k hk l hl).2⟩

theorem copyLoop3_cnt1_zero (src : List α) (sl dl : Nat → Nat → Nat → Nat)
    (len sy0 dy0 cnt2 sz0 dz0 : Nat) :
    ∀ (n sw dw : Nat) (dst : List α),
      copyLoop3 src sl dl len 0 sy0 dy0 cnt2 sz0 dz0 n sw dw dst = some dst := by
  intro n
  induction n with
  | zero => intro _ _ _; rfl
  | succ m ih =>
    intro sw dw dst
    simp only [copyLoop3]
    rw [copyLoop2_cnt1_zero]
    simp only [Option.some_bind]
    exact ih _ _ dst

theorem copyLoop3_cnt2_zero (src : List α) (sl dl : Nat → Nat → Nat → Nat)
    (len cnt1 sy0 dy0 sz0 dz0 : Nat) :
    ∀ (n sw dw : Nat) (dst : List α),
      copyLoop3 src sl dl len cnt1 sy0 dy0 0 sz0 dz0 n sw dw dst = some dst := by
  intro n
  induction n with
  | zero => intro _ _ _; rfl
  | succ m ih =>
    intro sw dw dst
    simp only [copyLoop3, copyLoop2, Option.some_bind]
    exact ih _ _ dst

theorem copy4_outerZero {cs ss ds : Nat × Nat × Nat × Nat} {src dst : List α}
    {slin dlin : Nat → Nat → Nat → Nat → Nat}
    (h0 : cs.2.1 = 0 ∨ cs.2.2.1 = 0 ∨ cs.2.2.2 = 0) :
    copy4 cs src slin ss dst dlin ds = some dst := by
  unfold copy4
  rcases h0 with h0 | h0 | h0
  · rw [h0]
    exact copyLoop3_cnt1_zero src _ _ cs.1 ss.2.1 ds.2.1 cs.2.2.1 ss.2.2.1 ds.2.2.1
      cs.2.2.2 ss.2.2.2 ds.2.2.2 dst
  · rw [h0]
    exact copyLoop3_cnt2_zero src _ _ cs.1 cs.2.1 ss.2.1 ds.2.1 ss.2.2.1 ds.2.2.1
      cs.2.2.2 ss.2.2.2 ds.2.2.2 dst
  · rw [h0]
    rfl

theorem fill4_values {fs ds : Nat × Nat × Nat × Nat} {v : α} {dst d : List α}
    {dlin : Nat → Nat → Nat → Nat → Nat}
    (hd : rep4 ds fs) (hcd : contig4 dlin ds fs)
    (h : fill4 fs v dst dlin ds = some d) :
    ∀ a, a < fs.1 → ∀ b, b < fs.2.1 → ∀ c, c < fs.2.2.1 → ∀ e, e < fs.2.2.2 →
      d[dlin (ds.1 + a) (ds.2.1 + b) (ds.2.2.1 + c) (ds.2.2.2 + e)]? = some v := by
  intro a ha b hb c hc e he
  rw [fill4_eq_runs hd.1 hd.2.2.1 hd.2.2.2.2.1] at h
  apply fillRuns_value h
  refine ⟨dlin ds.1 (ds.2.1 + b) (ds.2.2.1 + c) (ds.2.2.2 + e),
    (mem_planFill4 hd).mpr ⟨e, he, c, hc, b, hb, rfl⟩, ?_⟩
  have hidx := hcd a ha b hb c hc e he
  exact ⟨by omega, by omega⟩

theorem fill4_frame {fs ds : Nat × Nat × Nat × Nat} {v : α} {dst d : List α}
    {dlin : Nat → Nat → Nat → Nat → Nat}
    (hd1 : ds.2.1 < W) (hd2 : ds.2.2.1 < W) (hd3 : ds.2.2.2 < W)
    (h : fill4 fs v dst dlin ds = some d) (i : Nat)
    (hout : ∀ q ∈ planFill4 fs dlin ds, ¬ hits fs.1 i q) :
    d[i]? = dst[i]? := by
  rw [fill4_eq_runs hd1 hd2 hd3] at h
  exact fillRuns_frame h hout

theorem fill4_complete {fs ds : Nat × Nat × Nat × Nat} {v : α} {dst : List α}
    {dlin : Nat → Nat → Nat → Nat → Nat}
    (hd : rep4 ds fs) (hbd : inB4 dlin ds fs dst.length)
    (hcd : contig4 dlin ds fs) (hpos : 0 < fs.1) :
    (∀ q ∈ planFill4 fs dlin ds, q + fs.1 ≤ dst.length) ∧
      ∃ d, fill4 fs v dst dlin ds = some d := by
  have hb : ∀ q ∈ planFill4 fs dlin ds, q + fs.1 ≤ dst.length := by
    intro q hq
    obtain ⟨l, hl, k, hk, j, hj, hqe⟩ := (mem_planFill4 hd).mp hq
    subst hqe
    have h3 := hbd (fs.1 - 1) (by omega) j hj k hk l hl
    have h4 := hcd (fs.1 - 1) (by omega) j hj k hk l hl
    omega
  refine ⟨hb, ?_⟩
  rw [fill4_eq_runs hd.1 hd.2.2.1 hd.2.2.2.2.1]
  exact Option.isSome_iff_exists.mp (fillRuns_isSome_iff.mpr hb)

theorem fill4_rowZero_iff {fs ds : Nat × Nat × Nat × Nat} {v : α} {dst : List α}
    {dlin : Nat → Nat → Nat → Nat → Nat} (hd : rep4 ds fs) (h0 : fs.1 = 0) :
    fill4 fs v dst dlin ds = some dst ↔
      ∀ j, j < fs.2.1 → ∀ k, k < fs.2.2.1 → ∀ l, l < fs.2.2.2 →
        dlin ds.1 (ds.2.1 + j) (ds.2.2.1 + k) (ds.2.2.2 + l) ≤ dst.length := by
  rw [fill4_eq_runs hd.1 hd.2.2.1 hd.2.2.2.2.1]
  constructor
  · intro h j hj k hk l hl
    have hsome : (fillRuns v fs.1 (planFill4 fs dlin ds) dst).isSome := by
      rw [h]
      rfl
    have hb := fillRuns_isSome_iff.mp hsome
      (dlin ds.1 (ds.2.1 + j) (ds.2.2.1 + k) (ds.2.2.2 + l))
      ((mem_planFill4 hd).mpr ⟨l, hl, k, hk, j, hj, rfl⟩)
    omega
  · intro hb
    rw [h0]
    apply fillRuns_zeroLen_of
    intro q hq
    obtain ⟨l, hl, k, hk, j, hj, hqe⟩ := (mem_planFill4 hd).mp hq
    subst hqe
    exact hb j hj k hk l hl

theorem fillLoop3_cnt1_zero (v : α) (dl : Nat → Nat → Nat → Nat)
    (len dy0 cnt2 dz0 : Nat) :
    ∀ (n dw : Nat) (dst : List α),
      fillLoop3 v dl len 0 dy0 cnt2 dz0 n dw dst = some dst := by
  intro n
  induction n with
  | zero => intro _ _; rfl
  | succ m ih =>
    intro dw dst
    simp only [fillLoop3]
    rw [fillLoop2_cnt1_zero]
    simp only [Option.some_bind]
    exact ih _ dst

theorem fillLoop3_cnt2_zero (v : α) (dl : Nat → Nat → Nat → Nat)
    (len cnt1 dy0 dz0 : Nat) :
    ∀ (n dw : Nat) (dst : List α),
      fillLoop3 v dl len cnt1 dy0 0 dz0 n dw dst = some dst := by
  intro n
  induction n with
  | zero => intro _ _; rfl
  | succ m ih =>
    intro dw dst
    simp only [fillLoop3, fillLoop2, Option.some_bind]
    exact ih _ dst

theorem fill4_outerZero {fs ds : Nat × Nat × Nat × Nat} {v : α} {dst : List α}
    {dlin : Nat → Nat → Nat → Nat → Nat}
    (h0 : fs.2.1 = 0 ∨ fs.2.2.1 = 0 ∨ fs.2.2.2 = 0) :
    fill4 fs v dst dlin ds = some dst := by
  unfold fill4
  rcases h0 with h0 | h0 | h0
  · rw [h0]
    exact fillLoop3_cnt1_zero v _ fs.1 ds.2.1 fs.2.2.1 ds.2.2.1 fs.2.2.2 ds.2.2.2 dst
  · rw [h0]
    exact fillLoop3_cnt2_zero v _ fs.1 fs.2.1 ds.2.1 ds.2.2.1 fs.2.2.2 ds.2.2.2 dst
  · rw [h0]
    rfl

/-- Claim C2: for N in {2,3,4}, under the in-bounds and axis-0-contiguity
preconditions of the copy contract, copyN leaves every destination position
whose linear index is outside the union of the addressed runs (the runs of
planCopyN) equal to its pre-call value, and fillN likewise leaves every
destination position outside the addressed region (planFillN) unchanged.
The source buffer is unmodified by construction of the embedding: copy only
reads src through a shared borrow and returns a new destination buffer. -/
theorem claim_C2 {α : Type} :
    (∀ (cs ss ds : Nat × Nat) (src dst d : List α) (slin dlin : Nat → Nat → Nat),
      rep2 ss cs → rep2 ds cs →
      inB2 slin ss cs src.length → inB2 dlin ds cs dst.length →
      contig2 slin ss cs → contig2 dlin ds cs →
      copy2 cs src slin ss dst dlin ds = some d →
      ∀ i, (∀ p ∈ planCopy2 cs slin ss dlin ds, ¬ hits cs.1 i p.2) →
        d[i]? = dst[i]?) ∧
    (∀ (cs ss ds : Nat × Nat × Nat) (src dst d : List α)
        (slin dlin : Nat → Nat → Nat → Nat),
      rep3 ss cs → rep3 ds cs →
      inB3 slin ss cs src.length → inB3 dlin ds cs dst.length →
      contig3 slin ss cs → contig3 dlin ds cs →
      copy3 cs src slin ss dst dlin ds = some d →
      ∀ i, (∀ p ∈ planCopy3 cs slin ss dlin ds, ¬ hits cs.1 i p.2) →
        d[i]? = dst[i]?) ∧
    (∀ (cs ss ds : Nat × Nat × Nat × Nat) (src dst d : List α)
        (slin dlin : Nat → Nat → Nat → Nat → Nat),
      rep4 ss cs → rep4 ds cs →
      inB4 slin ss cs src.length → inB4 dlin ds cs dst.length →
      contig4 slin ss cs → contig4 dlin ds cs →
      copy4 cs src slin ss dst dlin ds = some d →
      ∀ i, (∀ p ∈ planCopy4 cs slin ss dlin ds, ¬ hits cs.1 i p.2) →
        d[i]? = dst[i]?) ∧
    (∀ (fs ds : Nat × Nat) (v : α) (dst d : List α) (dlin : Nat → Nat → Nat),
      rep2 ds fs → inB2 dlin ds fs dst.length → contig2 dlin ds fs →
      fill2 fs v dst dlin ds = some d →
      ∀ i, (∀ q ∈ planFill2 fs dlin ds, ¬ hits fs.1 i q) → d[i]? = dst[i]?) ∧
    (∀ (fs ds : Nat × Nat × Nat) (v : α) (dst d : List α)
        (dlin : Nat → Nat → Nat → Nat),
      rep3 ds fs → inB3 dlin ds fs dst.length → contig3 dlin ds fs →
      fill3 fs v dst dlin ds = some d →
      ∀ i, (∀ q ∈ planFill3 fs dlin ds, ¬ hits fs.1 i q) → d[i]? = dst[i]?) ∧
    (∀ (fs ds : Nat × Nat × Nat × Nat) (v : α) (dst d : List α)
        (dlin : Nat → Nat → Nat → Nat → Nat),
      rep4 ds fs → inB4 dlin ds fs dst.length → contig4 dlin ds fs →
      fill4 fs v dst dlin ds = some d →
      ∀ i, (∀ q ∈ planFill4 fs dlin ds, ¬ hits fs.1 i q) → d[i]? = dst[i]?) := by
  refine ⟨?_, ?_, ?_, ?_, ?_, ?_⟩
  · intro cs ss ds src dst d slin dlin hs hd _ _ _ _ h i hout
    exact copy2_frame hs.1 hd.1 h i hout
  · intro cs ss ds src dst d slin dlin hs hd _ _ _ _ h i hout
    exact copy3_frame hs.1 hd.1 hs.2.2.1 hd.2.2.1 h i hout
  · intro cs ss ds src dst d slin dlin hs hd _ _ _ _ h i hout
    exact copy4_frame hs.1 hd.1 hs.2.2.1 hd.2.2.1 hs.2.2.2.2.1 hd.2.2.2.2.1 h i hout
  · intro fs ds v dst d dlin hd _ _ h i hout
    exact fill2_frame hd.1 h i hout
  · intro fs ds v dst d dlin hd _ _ h i hout
    exact fill3_frame hd.1 hd.2.2.1 h i hout
  · intro fs ds v dst d dlin hd _ _ h i hout
    exact fill4_frame hd.1 hd.2.2.1 hd.2.2.2.2.1 h i hout

/-- Witness for claim C2: a concrete completed 2D copy (extent 1 x 1 from a
2 x 2 source into a 2 x 2 destination at start (1,1)) leaves index 0, which
lies outside the single addressed run starting at index 3, unchanged. -/
theorem claim_C2_witness :
    (([0, 0, 0, 10] : List Nat))[0]? = (([0, 0, 0, 0] : List Nat))[0]? :=
  claim_C2.1 (1, 1) (0, 0) (1, 1) [10, 11, 12, 13] [0, 0, 0, 0] [0, 0, 0, 10]
    rowLin rowLin (by decide) (by decide) (by decide) (by decide) (by decide)
    (by decide) (by decide) 0 (by decide)

/-- Claim C3: for N in {2,3,4}, under the in-bounds and axis-0-contiguity
preconditions, after a completed fillN call every coordinate c of the extent
satisfies dst[dst_shape.linearize(dst_start + c)] = v. -/
theorem claim_C3 {α : Type} :
    (∀ (fs ds : Nat × Nat) (v : α) (dst d : List α) (dlin : Nat → Nat → Nat),
      rep2 ds fs → inB2 dlin ds fs dst.length → contig2 dlin ds fs →
      fill2 fs v dst dlin ds = some d →
      ∀ a, a < fs.1 → ∀ b, b < fs.2 → d[dlin (ds.1 + a) (ds.2 + b)]? = some v) ∧
    (∀ (fs ds : Nat × Nat × Nat) (v : α) (dst d : List α)
        (dlin : Nat → Nat → Nat → Nat),
      rep3 ds fs → inB3 dlin ds fs dst.length → contig3 dlin ds fs →
      fill3 fs v dst dlin ds = some d →
      ∀ a, a < fs.1 → ∀ b, b < fs.2.1 → ∀ c, c < fs.2.2 →
        d[dlin (ds.1 + a) (ds.2.1 + b) (ds.2.2 + c)]? = some v) ∧
    (∀ (fs ds : Nat × Nat × Nat × Nat) (v : α) (dst d : List α)
        (dlin : Nat → Nat → Nat → Nat → Nat),
      rep4 ds fs → inB4 dlin ds fs dst.length → contig4 dlin ds fs →
      fill4 fs v dst dlin ds = some d →
      ∀ a, a < fs.1 → ∀ b, b < fs.2.1 → ∀ c, c < fs.2.2.1 → ∀ e, e < fs.2.2.2 →
        d[dlin (ds.1 + a) (ds.2.1 + b) (ds.2.2.1 + c) (ds.2.2.2 + e)]? = some v) := by
  refine ⟨?_, ?_, ?_⟩
  · intro fs ds v dst d dlin hd _ hcd h
    exact fill2_values hd hcd h
  · intro fs ds v dst d dlin hd _ hcd h
    exact fill3_values hd hcd h
  · intro fs ds v dst d dlin hd _ hcd h
    exact fill4_values hd hcd h

/-- Witness for claim C3: a concrete completed 2D fill writes the value 7 at
the linearized coordinate (1,1) of a 2 x 2 destination. -/
theorem claim_C3_witness :
    (([0, 0, 0, 7] : List Nat))[rowLin (1 + 0) (1 + 0)]? = some 7 :=
  claim_C3.1 (1, 1) (1, 1) 7 [0, 0, 0, 0] [0, 0, 0, 7] rowLin
    (by decide) (by decide) (by decide) (by decide) 0 (by decide) 0 (by decide)

/-- Claim C8: for N in {2,3,4} and all arguments (with u32-representable
start coordinates), copyN and fillN factor as the sequential execution of
exactly extent[1] * ... * extent[N-1] bulk run operations: the call equals
running the plan list, whose length is that product. Termination itself is
by construction: the embedded operations are total structural recursions. -/
theorem claim_C8 {α : Type} :
    (∀ (cs ss ds : Nat × Nat) (src dst : List α) (slin dlin : Nat → Nat → Nat),
      rep2 ss cs → rep2 ds cs →
      copy2 cs src slin ss dst dlin ds =
          copyRuns src cs.1 (planCopy2 cs slin ss dlin ds) dst ∧
        (planCopy2 cs slin ss dlin ds).length = cs.2) ∧
    (∀ (cs ss ds : Nat × Nat × Nat) (src dst : List α)
        (slin dlin : Nat → Nat → Nat → Nat),
      rep3 ss cs → rep3 ds cs →
      copy3 cs src slin ss dst dlin ds =
          copyRuns src cs.1 (planCopy3 cs slin ss dlin ds) dst ∧
        (planCopy3 cs slin ss dlin ds).length = cs.2.1 * cs.2.2) ∧
    (∀ (cs ss ds : Nat × Nat × Nat × Nat) (src dst : List α)
        (slin dlin : Nat → Nat → Nat → Nat → Nat),
      rep4 ss cs → rep4 ds cs →
      copy4 cs src slin ss dst dlin ds =
          copyRuns src cs.1 (planCopy4 cs slin ss dlin ds) dst ∧
        (planCopy4 cs slin ss dlin ds).length = cs.2.1 * cs.2.2.1 * cs.2.2.2) ∧
    (∀ (fs ds : Nat × Nat) (v : α) (dst : List α) (dlin : Nat → Nat → Nat),
      rep2 ds fs →
      fill2 fs v dst dlin ds = fillRuns v fs.1 (planFill2 fs dlin ds) dst ∧
        (planFill2 fs dlin ds).length = fs.2) ∧
    (∀ (fs ds : Nat × Nat × Nat) (v : α) (dst : List α)
        (dlin : Nat → Nat → Nat → Nat),
      rep3 ds fs →
      fill3 fs v dst dlin ds = fillRuns v fs.1 (planFill3 fs dlin ds) dst ∧
        (planFill3 fs dlin ds).length = fs.2.1 * fs.2.2) ∧
    (∀ (fs ds : Nat × Nat × Nat × Nat) (v : α) (dst : List α)
        (dlin : Nat → Nat → Nat → Nat → Nat),
      rep4 ds fs →
      fill4 fs v dst dlin ds = fillRuns v fs.1 (planFill4 fs dlin ds) dst ∧
        (planFill4 fs dlin ds).length = fs.2.1 * fs.2.2.1 * fs.2.2.2) := by
  refine ⟨?_, ?_, ?_, ?_, ?_, ?_⟩
  · intro cs ss ds src dst slin dlin hs hd
    refine ⟨copy2_eq_runs hs.1 hd.1, ?_⟩
    unfold planCopy2
    exact length_plan1
  · intro cs ss ds src dst slin dlin hs hd
    refine ⟨copy3_eq_runs hs.1 hd.1 hs.2.2.1 hd.2.2.1, ?_⟩
    unfold planCopy3
    exact length_plan2 _ _
  · intro cs ss ds src dst slin dlin hs hd
    refine ⟨copy4_eq_runs hs.1 hd.1 hs.2.2.1 hd.2.2.1 hs.2.2.2.2.1 hd.2.2.2.2.1, ?_⟩
    unfold planCopy4
    exact length_plan3 _ _
  · intro fs ds v dst dlin hd
    refine ⟨fill2_eq_runs hd.1, ?_⟩
    unfold planFill2
    exact length_fplan1
  · intro fs ds v dst dlin hd
    refine ⟨fill3_eq_runs hd.1 hd.2.2.1, ?_⟩
    unfold planFill3
    exact length_fplan2 _
  · intro fs ds v dst dlin hd
    refine ⟨fill4_eq_runs hd.1 hd.2.2.1 hd.2.2.2.2.1, ?_⟩
    unfold planFill4
    exact length_fplan3 _

/-- Witness for claim C8: the concrete 1 x 1 2D copy equals its one-run plan
execution, and the plan has exactly one run. -/
theorem claim_C8_witness :
    copy2 (1, 1) ([10, 11, 12, 13] : List Nat) rowLin (0, 0) [0, 0, 0, 0] rowLin (1, 1) =
        copyRuns [10, 11, 12, 13] 1 (planCopy2 (1, 1) rowLin (0, 0) rowLin (1, 1))
          [0, 0, 0, 0] ∧
      (planCopy2 (1, 1) rowLin (0, 0) rowLin (1, 1)).length = 1 :=
  claim_C8.1 (1, 1) (0, 0) (1, 1) [10, 11, 12, 13] [0, 0, 0, 0] rowLin rowLin
    (by decide) (by decide)

/-- Claim C9: for N in {2,3,4}, copyN and fillN are deterministic: two calls
with equal extents, buffers, shapes, start coordinates and value produce
equal results. In the embedding the operations are pure functions of exactly
these arguments, which is faithful to the source: the Rust functions read no
state outside their parameters (element duplication is assumed by the
specification to be a pure value copy). -/
theorem claim_C9 {α : Type} :
    (∀ (cs cs' ss ss' ds ds' : Nat × Nat) (src src' dst dst' : List α)
        (slin slin' dlin dlin' : Nat → Nat → Nat),
      cs = cs' → src = src' → slin = slin' → ss = ss' → dst = dst' →
      dlin = dlin' → ds = ds' →
      copy2 cs src slin ss dst dlin ds = copy2 cs' src' slin' ss' dst' dlin' ds') ∧
    (∀ (cs cs' ss ss' ds ds' : Nat × Nat × Nat) (src src' dst dst' : List α)
        (slin slin' dlin dlin' : Nat → Nat → Nat → Nat),
      cs = cs' → src = src' → slin = slin' → ss = ss' → dst = dst' →
      dlin = dlin' → ds = ds' →
      copy3 cs src slin ss dst dlin ds = copy3 cs' src' slin' ss' dst' dlin' ds') ∧
    (∀ (cs cs' ss ss' ds ds' : Nat × Nat × Nat × Nat) (src src' dst dst' : List α)
        (slin slin' dlin dlin' : Nat → Nat → Nat → Nat → Nat),
      cs = cs' → src = src' → slin = slin' → ss = ss' → dst = dst' →
      dlin = dlin' → ds = ds' →
      copy4 cs src slin ss dst dlin ds = copy4 cs' src' slin' ss' dst' dlin' ds') ∧
    (∀ (fs fs' ds ds' : Nat × Nat) (v v' : α) (dst dst' : List α)
        (dlin dlin' : Nat → Nat → Nat),
      fs = fs' → v = v' → dst = dst' → dlin = dlin' → ds = ds' →
      fill2 fs v dst dlin ds = fill2 fs' v' dst' dlin' ds') ∧
    (∀ (fs fs' ds ds' : Nat × Nat × Nat) (v v' : α) (dst dst' : List α)
        (dlin dlin' : Nat → Nat → Nat → Nat),
      fs = fs' → v = v' → dst = dst' → dlin = dlin' → ds = ds' →
      fill3 fs v dst dlin ds = fill3 fs' v' dst' dlin' ds') ∧
    (∀ (fs fs' ds ds' : Nat × Nat × Nat × Nat) (v v' : α) (dst dst' : List α)
        (dlin dlin' : Nat → Nat → Nat → Nat → Nat),
      fs = fs' → v = v' → dst = dst' → dlin = dlin' → ds = ds' →
      fill4 fs v dst dlin ds = fill4 fs' v' dst' dlin' ds') := by
  refine ⟨?_, ?_, ?_, ?_, ?_, ?_⟩ <;>
    · intros
      subst_vars
      rfl

/-- Witness for claim C9: two syntactically identical concrete 2D copy calls
agree. -/
theorem claim_C9_witness :
    copy2 (1, 1) ([10, 11, 12, 13] : List Nat) rowLin (0, 0) [0, 0, 0, 0] rowLin (1, 1) =
      copy2 (1, 1) ([10, 11, 12, 13] : List Nat) rowLin (0, 0) [0, 0, 0, 0] rowLin (1, 1) :=
  claim_C9.1 (1, 1) (1, 1) (0, 0) (0, 0) (1, 1) (1, 1) [10, 11, 12, 13] [10, 11, 12, 13]
    [0, 0, 0, 0] [0, 0, 0, 0] rowLin rowLin rowLin rowLin rfl rfl rfl rfl rfl rfl rfl

/-- Claim C1 (amended): for N in {2,3,4}, under the in-bounds and
axis-0-contiguity preconditions, and additionally assuming the destination
linearize is injective on the touched region (without which the addressed
destination runs may coincide and a later run overwrite an earlier one),
after a completed copyN call every coordinate c of the extent satisfies
dst[dst_shape.linearize(dst_start + c)] = src[src_shape.linearize(src_start + c)]. -/
theorem claim_C1 {α : Type} :
    (∀ (cs ss ds : Nat × Nat) (src dst d : List α) (slin dlin : Nat → Nat → Nat),
      rep2 ss cs → rep2 ds cs →
      inB2 slin ss cs src.length → inB2 dlin ds cs dst.length →
      contig2 slin ss cs → contig2 dlin ds cs → inj2 dlin ds cs →
      copy2 cs src slin ss dst dlin ds = some d →
      ∀ a, a < cs.1 → ∀ b, b < cs.2 →
        d[dlin (ds.1 + a) (ds.2 + b)]? = src[slin (ss.1 + a) (ss.2 + b)]?) ∧
    (∀ (cs ss ds : Nat × Nat × Nat) (src dst d : List α)
        (slin dlin : Nat → Nat → Nat → Nat),
      rep3 ss cs → rep3 ds cs →
      inB3 slin ss cs src.length → inB3 dlin ds cs dst.length →
      contig3 slin ss cs → contig3 dlin ds cs → inj3 dlin ds cs →
      copy3 cs src slin ss dst dlin ds = some d →
      ∀ a, a < cs.1 → ∀ b, b < cs.2.1 → ∀ c, c < cs.2.2 →
        d[dlin (ds.1 + a) (ds.2.1 + b) (ds.2.2 + c)]? =
          src[slin (ss.1 + a) (ss.2.1 + b) (ss.2.2 + c)]?) ∧
    (∀ (cs ss ds : Nat × Nat × Nat × Nat) (src dst d : List α)
        (slin dlin : Nat → Nat → Nat → Nat → Nat),
      rep4 ss cs → rep4 ds cs →
      inB4 slin ss cs src.length → inB4 dlin ds cs dst.length →
      contig4 slin ss cs → contig4 dlin ds cs → inj4 dlin ds cs →
      copy4 cs src slin ss dst dlin ds = some d →
      ∀ a, a < cs.1 → ∀ b, b < cs.2.1 → ∀ c, c < cs.2.2.1 → ∀ e, e < cs.2.2.2 →
        d[dlin (ds.1 + a) (ds.2.1 + b) (ds.2.2.1 + c) (ds.2.2.2 + e)]? =
          src[slin (ss.1 + a) (ss.2.1 + b) (ss.2.2.1 + c) (ss.2.2.2 + e)]?) := by
  refine ⟨?_, ?_, ?_⟩
  · intro cs ss ds src dst d slin dlin hs hd _ _ hcs hcd hinj h
    exact copy2_values hs hd hcs hcd hinj h
  · intro cs ss ds src dst d slin dlin hs hd _ _ hcs hcd hinj h
    exact copy3_values hs hd hcs hcd hinj h
  · intro cs ss ds src dst d slin dlin hs hd _ _ hcs hcd hinj h
    exact copy4_values hs hd hcs hcd hinj h

/-- Counterexample to claim C1 as stated: the destination shape
collapseLin (x, y) = x satisfies the claimed preconditions (axis-0
contiguity and in-bounds for extent 1 x 2 in a length-1 destination), yet
after copy2 the single destination cell holds the value of the second source
row, not the first, so the claimed per-coordinate equality fails at
coordinate (0,0). -/
theorem claim_C1_counterexample :
    rep2 (0, 0) (1, 2) ∧
      inB2 rowLin (0, 0) (1, 2) (([5, 6, 8] : List Nat)).length ∧
      inB2 collapseLin (0, 0) (1, 2) (([0] : List Nat)).length ∧
      contig2 rowLin (0, 0) (1, 2) ∧ contig2 collapseLin (0, 0) (1, 2) ∧
      copy2 (1, 2) ([5, 6, 8] : List Nat) rowLin (0, 0) ([0] : List Nat)
        collapseLin (0, 0) = some [8] ∧
      ¬ (([8] : List Nat)[collapseLin (0 + 0) (0 + 0)]? =
        ([5, 6, 8] : List Nat)[rowLin (0 + 0) (0 + 0)]?) := by
  decide

/-- Witness for claim C1: a concrete completed 1 x 1 copy between 2 x 2
row-major buffers moves source value 10 at (0,0) to destination (1,1). -/
theorem claim_C1_witness :
    (([0, 0, 0, 10] : List Nat))[rowLin (1 + 0) (1 + 0)]? =
      (([10, 11, 12, 13] : List Nat))[rowLin (0 + 0) (0 + 0)]? :=
  claim_C1.1 (1, 1) (0, 0) (1, 1) [10, 11, 12, 13] [0, 0, 0, 0] [0, 0, 0, 10]
    rowLin rowLin (by decide) (by decide) (by decide) (by decide) (by decide)
    (by decide)
    (by intro a ha b hb a' ha' b' hb' h; omega)
    (by decide) 0 (by decide) 0 (by decide)

/-- Claim C4 (amended): a copyN or fillN call whose extent is zero on some
axis other than axis 0 is an unconditional no-op, for arbitrary start
coordinates and shapes; a call whose axis-0 extent is zero is a no-op
provided every addressed run start offset is at most the corresponding
buffer length (otherwise the empty-range slice indexing itself is
out of range and the call panics instead of completing). -/
theorem claim_C4 {α : Type} :
    (∀ (cs ss ds : Nat × Nat) (src dst : List α) (slin dlin : Nat → Nat → Nat),
      cs.2 = 0 → copy2 cs src slin ss dst dlin ds = some dst) ∧
    (∀ (cs ss ds : Nat × Nat × Nat) (src dst : List α)
        (slin dlin : Nat → Nat → Nat → Nat),
      cs.2.1 = 0 ∨ cs.2.2 = 0 → copy3 cs src slin ss dst dlin ds = some dst) ∧
    (∀ (cs ss ds : Nat × Nat × Nat × Nat) (src dst : List α)
        (slin dlin : Nat → Nat → Nat → Nat → Nat),
      cs.2.1 = 0 ∨ cs.2.2.1 = 0 ∨ cs.2.2.2 = 0 →
      copy4 cs src slin ss dst dlin ds = some dst) ∧
    (∀ (fs ds : Nat × Nat) (v : α) (dst : List α) (dlin : Nat → Nat → Nat),
      fs.2 = 0 → fill2 fs v dst dlin ds = some dst) ∧
    (∀ (fs ds : Nat × Nat × Nat) (v : α) (dst : List α)
        (dlin : Nat → Nat → Nat → Nat),
      fs.2.1 = 0 ∨ fs.2.2 = 0 → fill3 fs v dst dlin ds = some dst) ∧
    (∀ (fs ds : Nat × Nat × Nat × Nat) (v : α) (dst : List α)
        (dlin : Nat → Nat → Nat → Nat → Nat),
      fs.2.1 = 0 ∨ fs.2.2.1 = 0 ∨ fs.2.2.2 = 0 → fill4 fs v dst dlin ds = some dst) ∧
    (∀ (cs ss ds : Nat × Nat) (src dst : List α) (slin dlin : Nat → Nat → Nat),
      cs.1 = 0 → rep2 ss cs → rep2 ds cs →
      (∀ j, j < cs.2 →
        slin ss.1 (ss.2 + j) ≤ src.length ∧ dlin ds.1 (ds.2 + j) ≤ dst.length) →
      copy2 cs src slin ss dst dlin ds = some dst) ∧
    (∀ (cs ss ds : Nat × Nat × Nat) (src dst : List α)
        (slin dlin : Nat → Nat → Nat → Nat),
      cs.1 = 0 → rep3 ss cs → rep3 ds cs →
      (∀ j, j < cs.2.1 → ∀ k, k < cs.2.2 →
        slin ss.1 (ss.2.1 + j) (ss.2.2 + k) ≤ src.length ∧
          dlin ds.1 (ds.2.1 + j) (ds.2.2 + k) ≤ dst.length) →
      copy3 cs src slin ss dst dlin ds = some dst) ∧
    (∀ (cs ss ds : Nat × Nat × Nat × Nat) (src dst : List α)
        (slin dlin : Nat → Nat → Nat → Nat → Nat),
      cs.1 = 0 → rep4 ss cs → rep4 ds cs →
      (∀ j, j < cs.2.1 → ∀ k, k < cs.2.2.1 → ∀ l, l < cs.2.2.2 →
        slin ss.1 (ss.2.1 + j) (ss.2.2.1 + k) (ss.2.2.2 + l) ≤ src.length ∧
          dlin ds.1 (ds.2.1 + j) (ds.2.2.1 + k) (ds.2.2.2 + l) ≤ dst.length) →
      copy4 cs src slin ss dst dlin ds = some dst) ∧
    (∀ (fs ds : Nat × Nat) (v : α) (dst : List α) (dlin : Nat → Nat → Nat),
      fs.1 = 0 → rep2 ds fs →
      (∀ j, j < fs.2 → dlin ds.1 (ds.2 + j) ≤ dst.length) →
      fill2 fs v dst dlin ds = some dst) ∧
    (∀ (fs ds : Nat × Nat × Nat) (v : α) (dst : List α)
        (dlin : Nat → Nat → Nat → Nat),
      fs.1 = 0 → rep3 ds fs →
      (∀ j, j < fs.2.1 → ∀ k, k < fs.2.2 →
        dlin ds.1 (ds.2.1 + j) (ds.2.2 + k) ≤ dst.length) →
      fill3 fs v dst dlin ds = some dst) ∧
    (∀ (fs ds : Nat × Nat × Nat × Nat) (v : α) (dst : List α)
        (dlin : Nat → Nat → Nat → Nat → Nat),
      fs.1 = 0 → rep4 ds fs →
      (∀ j, j < fs.2.1 → ∀ k, k < fs.2.2.1 → ∀ l, l < fs.2.2.2 →
        dlin ds.1 (ds.2.1 + j) (ds.2.2.1 + k) (ds.2.2.2 + l) ≤ dst.length) →
      fill4 fs v dst dlin ds = some dst) := by
  refine ⟨?_, ?_, ?_, ?_, ?_, ?_, ?_, ?_, ?_, ?_, ?_, ?_⟩
  · intro cs ss ds src dst slin dlin h0
    exact copy2_outerZero h0
  · intro cs ss ds src dst slin dlin h0
    exact copy3_outerZero h0
  · intro cs ss ds src dst slin dlin h0
    exact copy4_outerZero h0
  · intro fs ds v dst dlin h0
    exact fill2_outerZero h0
  · intro fs ds v dst dlin h0
    exact fill3_outerZero h0
  · intro fs ds v dst dlin h0
    exact fill4_outerZero h0
  · intro cs ss ds src dst slin dlin h0 hs hd hb
    exact (copy2_rowZero_iff hs hd h0).mpr hb
  · intro cs ss ds src dst slin dlin h0 hs hd hb
    exact (copy3_rowZero_iff hs hd h0).mpr hb
  · intro cs ss ds src dst slin dlin h0 hs hd hb
    exact (copy4_rowZero_iff hs hd h0).mpr hb
  · intro fs ds v dst dlin h0 hd hb
    exact (fill2_rowZero_iff hd h0).mpr hb
  · intro fs ds v dst dlin h0 hd hb
    exact (fill3_rowZero_iff hd h0).mpr hb
  · intro fs ds v dst dlin h0 hd hb
    exact (fill4_rowZero_iff hd h0).mpr hb

/-- Counterexample to claim C4 as stated: with extent (0, 1) (axis 0 zero,
so some axis of the extent is zero) and a shape whose linearize returns 5,
copy2 on empty buffers panics on the empty-range index dst[5..5] instead of
completing as a no-op, so the call is not a no-op for arbitrary shapes. -/
theorem claim_C4_counterexample :
    copy2 (0, 1) ([] : List Nat) farLin (0, 0) ([] : List Nat) farLin (0, 0) = none ∧
      ¬ (copy2 (0, 1) ([] : List Nat) farLin (0, 0) ([] : List Nat) farLin (0, 0) =
        some ([] : List Nat)) := by
  decide

/-- Witness for claim C4: a 2D copy with zero outer extent on empty buffers
and a far-out shape still completes unchanged. -/
theorem claim_C4_witness :
    copy2 (3, 0) ([] : List Nat) farLin (0, 0) ([] : List Nat) farLin (0, 0) =
      some ([] : List Nat) :=
  claim_C4.1 (3, 0) (0, 0) (0, 0) [] [] farLin farLin rfl

/-- Claim C5 (amended): for N in {2,3,4}, under the in-bounds and
axis-0-contiguity preconditions and provided the axis-0 extent is positive
(when it is zero the preconditions are vacuous yet the empty-range indexing
can still be out of range), every computed run interval
[run_start, run_start + extent[0]) lies within the corresponding buffer
length and the operation completes without a panic. -/
theorem claim_C5 {α : Type} :
    (∀ (cs ss ds : Nat × Nat) (src dst : List α) (slin dlin : Nat → Nat → Nat),
      rep2 ss cs → rep2 ds cs →
      inB2 slin ss cs src.length → inB2 dlin ds cs dst.length →
      contig2 slin ss cs → contig2 dlin ds cs → 0 < cs.1 →
      (∀ p ∈ planCopy2 cs slin ss dlin ds,
          p.1 + cs.1 ≤ src.length ∧ p.2 + cs.1 ≤ dst.length) ∧
        ∃ d, copy2 cs src slin ss dst dlin ds = some d) ∧
    (∀ (cs ss ds : Nat × Nat × Nat) (src dst : List α)
        (slin dlin : Nat → Nat → Nat → Nat),
      rep3 ss cs → rep3 ds cs →
      inB3 slin ss cs src.length → inB3 dlin ds cs dst.length →
      contig3 slin ss cs → contig3 dlin ds cs → 0 < cs.1 →
      (∀ p ∈ planCopy3 cs slin ss dlin ds,
          p.1 + cs.1 ≤ src.length ∧ p.2 + cs.1 ≤ dst.length) ∧
        ∃ d, copy3 cs src slin ss dst dlin ds = some d) ∧
    (∀ (cs ss ds : Nat × Nat × Nat × Nat) (src dst : List α)
        (slin dlin : Nat → Nat → Nat → Nat → Nat),
      rep4 ss cs → rep4 ds cs →
      inB4 slin ss cs src.length → inB4 dlin ds cs dst.length →
      contig4 slin ss cs → contig4 dlin ds cs → 0 < cs.1 →
      (∀ p ∈ planCopy4 cs slin ss dlin ds,
          p.1 + cs.1 ≤ src.length ∧ p.2 + cs.1 ≤ dst.length) ∧
        ∃ d, copy4 cs src slin ss dst dlin ds = some d) ∧
    (∀ (fs ds : Nat × Nat) (v : α) (dst : List α) (dlin : Nat → Nat → Nat),
      rep2 ds fs → inB2 dlin ds fs dst.length → contig2 dlin ds fs → 0 < fs.1 →
      (∀ q ∈ planFill2 fs dlin ds, q + fs.1 ≤ dst.length) ∧
        ∃ d, fill2 fs v dst dlin ds = some d) ∧
    (∀ (fs ds : Nat × Nat × Nat) (v : α) (dst : List α)
        (dlin : Nat → Nat → Nat → Nat),
      rep3 ds fs → inB3 dlin ds fs dst.length → contig3 dlin ds fs → 0 < fs.1 →
      (∀ q ∈ planFill3 fs dlin ds, q + fs.1 ≤ dst.length) ∧
        ∃ d, fill3 fs v dst dlin ds = some d) ∧
    (∀ (fs ds : Nat × Nat × Nat × Nat) (v : α) (dst : List α)
        (dlin : Nat → Nat → Nat → Nat → Nat),
      rep4 ds fs → inB4 dlin ds fs dst.length → contig4 dlin ds fs → 0 < fs.1 →
      (∀ q ∈ planFill4 fs dlin ds, q + fs.1 ≤ dst.length) ∧
        ∃ d, fill4 fs v dst dlin ds = some d) := by
  refine ⟨?_, ?_, ?_, ?_, ?_, ?_⟩
  · intro cs ss ds src dst slin dlin hs hd hbs hbd hcs hcd hpos
    exact copy2_complete hs hd hbs hbd hcs hcd hpos
  · intro cs ss ds src dst slin dlin hs hd hbs hbd hcs hcd hpos
    exact copy3_complete hs hd hbs hbd hcs hcd hpos
  · intro cs ss ds src dst slin dlin hs hd hbs hbd hcs hcd hpos
    exact copy4_complete hs hd hbs hbd hcs hcd hpos
  · intro fs ds v dst dlin hd hbd hcd hpos
    exact fill2_complete hd hbd hcd hpos
  · intro fs ds v dst dlin hd hbd hcd hpos
    exact fill3_complete hd hbd hcd hpos
  · intro fs ds v dst dlin hd hbd hcd hpos
    exact fill4_complete hd hbd hcd hpos

/-- Counterexample to claim C5 as stated: with extent (0, 1) every
precondition holds vacuously (no coordinate is touched), yet copy2 on empty
buffers with a shape whose linearize returns 5 panics on the empty-range
index instead of completing. -/
theorem claim_C5_counterexample :
    rep2 (0, 0) (0, 1) ∧
      inB2 farLin (0, 0) (0, 1) (([] : List Nat)).length ∧
      inB2 farLin (0, 0) (0, 1) (([] : List Nat)).length ∧
      contig2 farLin (0, 0) (0, 1) ∧
      copy2 (0, 1) ([] : List Nat) farLin (0, 0) ([] : List Nat) farLin (0, 0) =
        none := by
  decide

/-- Witness for claim C5: the concrete 1 x 1 2D copy satisfies the
preconditions, its single run fits both buffers, and the call completes. -/
theorem claim_C5_witness :
    (∀ p ∈ planCopy2 (1, 1) rowLin (0, 0) rowLin (1, 1),
        p.1 + (1, 1).1 ≤ (([10, 11, 12, 13] : List Nat)).length ∧
          p.2 + (1, 1).1 ≤ (([0, 0, 0, 0] : List Nat)).length) ∧
      ∃ d, copy2 (1, 1) ([10, 11, 12, 13] : List Nat) rowLin (0, 0)
        ([0, 0, 0, 0] : List Nat) rowLin (1, 1) = some d :=
  claim_C5.1 (1, 1) (0, 0) (1, 1) [10, 11, 12, 13] [0, 0, 0, 0] rowLin rowLin
    (by decide) (by decide) (by decide) (by decide) (by decide) (by decide) (by decide)

/-- Claim C6 (amended): for N in {2,3,4}, under the in-bounds and
axis-0-contiguity preconditions, and additionally assuming the destination
linearize is injective on the touched region (without which distinct outer
coordinates can map to the same run), the destination run intervals
addressed by copyN for two distinct outer-axis coordinate combinations are
pairwise disjoint. -/
theorem claim_C6 :
    (∀ (cs ss ds : Nat × Nat) (slin dlin : Nat → Nat → Nat) (m n : Nat),
      rep2 ss cs → rep2 ds cs → inB2 slin ss cs m → inB2 dlin ds cs n →
      contig2 slin ss cs → contig2 dlin ds cs → inj2 dlin ds cs →
      ∀ p ∈ planCopy2 cs slin ss dlin ds, ∀ q ∈ planCopy2 cs slin ss dlin ds,
        p ≠ q → disjRuns cs.1 p.2 q.2) ∧
    (∀ (cs ss ds : Nat × Nat × Nat) (slin dlin : Nat → Nat → Nat → Nat) (m n : Nat),
      rep3 ss cs → rep3 ds cs → inB3 slin ss cs m → inB3 dlin ds cs n →
      contig3 slin ss cs → contig3 dlin ds cs → inj3 dlin ds cs →
      ∀ p ∈ planCopy3 cs slin ss dlin ds, ∀ q ∈ planCopy3 cs slin ss dlin ds,
        p ≠ q → disjRuns cs.1 p.2 q.2) ∧
    (∀ (cs ss ds : Nat × Nat × Nat × Nat) (slin dlin : Nat → Nat → Nat → Nat → Nat)
        (m n : Nat),
      rep4 ss cs → rep4 ds cs → inB4 slin ss cs m → inB4 dlin ds cs n →
      contig4 slin ss cs → contig4 dlin ds cs → inj4 dlin ds cs →
      ∀ p ∈ planCopy4 cs slin ss dlin ds, ∀ q ∈ planCopy4 cs slin ss dlin ds,
        p ≠ q → disjRuns cs.1 p.2 q.2) := by
  refine ⟨?_, ?_, ?_⟩
  · intro cs ss ds slin dlin m n hs hd _ _ _ hcd hinj p hp q hq hne
    obtain ⟨j, hj, hpe⟩ := (mem_planCopy2 hs hd).mp hp
    obtain ⟨j', hj', hqe⟩ := (mem_planCopy2 hs hd).mp hq
    subst hpe
    subst hqe
    show disjRuns cs.1 (dlin ds.1 (ds.2 + j)) (dlin ds.1 (ds.2 + j'))
    rcases Nat.le_total (dlin ds.1 (ds.2 + j)) (dlin ds.1 (ds.2 + j')) with hle | hle
    · left
      by_contra hlt
      push_neg at hlt
      have ho : dlin ds.1 (ds.2 + j') - dlin ds.1 (ds.2 + j) < cs.1 := by omega
      have hpos : 0 < cs.1 := by omega
      have hA : dlin (ds.1 + (dlin ds.1 (ds.2 + j') - dlin ds.1 (ds.2 + j)))
          (ds.2 + j) = dlin (ds.1 + 0) (ds.2 + j') := by
        rw [hcd _ ho j hj, hcd 0 hpos j' hj']
        omega
      obtain ⟨-, hj2⟩ := hinj _ ho j hj 0 hpos j' hj' hA
      subst hj2
      exact hne rfl
    · right
      by_contra hlt
      push_neg at hlt
      have ho : dlin ds.1 (ds.2 + j) - dlin ds.1 (ds.2 + j') < cs.1 := by omega
      have hpos : 0 < cs.1 := by omega
      have hA : dlin (ds.1 + (dlin ds.1 (ds.2 + j) - dlin ds.1 (ds.2 + j')))
          (ds.2 + j') = dlin (ds.1 + 0) (ds.2 + j) := by
        rw [hcd _ ho j' hj', hcd 0 hpos j hj]
        omega
      obtain ⟨-, hj2⟩ := hinj _ ho j' hj' 0 hpos j hj hA
      subst hj2
      exact hne rfl
  · intro cs ss ds slin dlin m n hs hd _ _ _ hcd hinj p hp q hq hne
    obtain ⟨k, hk, j, hj, hpe⟩ := (mem_planCopy3 hs hd).mp hp
    obtain ⟨k', hk', j', hj', hqe⟩ := (mem_planCopy3 hs hd).mp hq
    subst hpe
    subst hqe
    show disjRuns cs.1 (dlin ds.1 (ds.2.1 + j) (ds.2.2 + k))
      (dlin ds.1 (ds.2.1 + j') (ds.2.2 + k'))
    rcases Nat.le_total (dlin ds.1 (ds.2.1 + j) (ds.2.2 + k))
        (dlin ds.1 (ds.2.1 + j') (ds.2.2 + k')) with hle | hle
    · left
      by_contra hlt
      push_neg at hlt
      have ho : dlin ds.1 (ds.2.1 + j') (ds.2.2 + k') -
          dlin ds.1 (ds.2.1 + j) (ds.2.2 + k) < cs.1 := by omega
      have hpos : 0 < cs.1 := by omega
      have hA : dlin (ds.1 + (dlin ds.1 (ds.2.1 + j') (ds.2.2 + k') -
          dlin ds.1 (ds.2.1 + j) (ds.2.2 + k))) (ds.2.1 + j) (ds.2.2 + k) =
          dlin (ds.1 + 0) (ds.2.1 + j') (ds.2.2 + k') := by
        rw [hcd _ ho j hj k hk, hcd 0 hpos j' hj' k' hk']
        omega
      obtain ⟨-, hj2, hk2⟩ := hinj _ ho j hj k hk 0 hpos j' hj' k' hk' hA
      subst hj2
      subst hk2
      exact hne rfl
    · right
      by_contra hlt
      push_neg at hlt
      have ho : dlin ds.1 (ds.2.1 + j) (ds.2.2 + k) -
          dlin ds.1 (ds.2.1 + j') (ds.2.2 + k') < cs.1 := by omega
      have hpos : 0 < cs.1 := by omega
      have hA : dlin (ds.1 + (dlin ds.1 (ds.2.1 + j) (ds.2.2 + k) -
          dlin ds.1 (ds.2.1 + j') (ds.2.2 + k'))) (ds.2.1 + j') (ds.2.2 + k') =
          dlin (ds.1 + 0) (ds.2.1 + j) (ds.2.2 + k) := by
        rw [hcd _ ho j' hj' k' hk', hcd 0 hpos j hj k hk]
        omega
      obtain ⟨-, hj2, hk2⟩ := hinj _ ho j' hj' k' hk' 0 hpos j hj k hk hA
      subst hj2
      subst hk2
      exact hne rfl
  · intro cs ss ds slin dlin m n hs hd _ _ _ hcd hinj p hp q hq hne
    obtain ⟨l, hl, k, hk, j, hj, hpe⟩ := (mem_planCopy4 hs hd).mp hp
    obtain ⟨l', hl', k', hk', j', hj', hqe⟩ := (mem_planCopy4 hs hd).mp hq
    subst hpe
    subst hqe
    show disjRuns cs.1 (dlin ds.1 (ds.2.1 + j) (ds.2.2.1 + k) (ds.2.2.2 + l))
      (dlin ds.1 (ds.2.1 + j') (ds.2.2.1 + k') (ds.2.2.2 + l'))
    rcases Nat.le_total (dlin ds.1 (ds.2.1 + j) (ds.2.2.1 + k) (ds.2.2.2 + l))
        (dlin ds.1 (ds.2.1 + j') (ds.2.2.1 + k') (ds.2.2.2 + l')) with hle | hle
    · left
      by_contra hlt
      push_neg at hlt
      have ho : dlin ds.1 (ds.2.1 + j') (ds.2.2.1 + k') (ds.2.2.2 + l') -
          dlin ds.1 (ds.2.1 + j) (ds.2.2.1 + k) (ds.2.2.2 + l) < cs.1 := by omega
      have hpos : 0 < cs.1 := by omega
      have hA : dlin (ds.1 + (dlin ds.1 (ds.2.1 + j') (ds.2.2.1 + k') (ds.2.2.2 + l') -
          dlin ds.1 (ds.2.1 + j) (ds.2.2.1 + k) (ds.2.2.2 + l)))
          (ds.2.1 + j) (ds.2.2.1 + k) (ds.2.2.2 + l) =
          dlin (ds.1 + 0) (ds.2.1 + j') (ds.2.2.1 + k') (ds.2.2.2 + l') := by
        rw [hcd _ ho j hj k hk l hl, hcd 0 hpos j' hj' k' hk' l' hl']
        omega
      obtain ⟨-, hj2, hk2, hl2⟩ := hinj _ ho j hj k hk l hl 0 hpos j' hj' k' hk' l' hl' hA
      subst hj2
      subst hk2
      subst hl2
      exact hne rfl
    · right
      by_contra hlt
      push_neg at hlt
      have ho : dlin ds.1 (ds.2.1 + j) (ds.2.2.1 + k) (ds.2.2.2 + l) -
          dlin ds.1 (ds.2.1 + j') (ds.2.2.1 + k') (ds.2.2.2 + l') < cs.1 := by omega
      have hpos : 0 < cs.1 := by omega
      have hA : dlin (ds.1 + (dlin ds.1 (ds.2.1 + j) (ds.2.2.1 + k) (ds.2.2.2 + l) -
          dlin ds.1 (ds.2.1 + j') (ds.2.2.1 + k') (ds.2.2.2 + l')))
          (ds.2.1 + j') (ds.2.2.1 + k') (ds.2.2.2 + l') =
          dlin (ds.1 + 0) (ds.2.1 + j) (ds.2.2.1 + k) (ds.2.2.2 + l) := by
        rw [hcd _ ho j' hj' k' hk' l' hl', hcd 0 hpos j hj k hk l hl]
        omega
      obtain ⟨-, hj2, hk2, hl2⟩ := hinj _ ho j' hj' k' hk' l' hl' 0 hpos j hj k hk l hl hA
      subst hj2
      subst hk2
      subst hl2
      exact hne rfl

/-- Counterexample to claim C6 as stated: with the destination shape
collapseLin (x, y) = x, which satisfies the claimed preconditions, the two
distinct outer coordinates j = 0 and j = 1 of extent (1, 2) both address
the destination run starting at 0, and those runs of length 1 are not
disjoint. -/
theorem claim_C6_counterexample :
    rep2 (0, 0) (1, 2) ∧ rep2 (0, 0) (1, 2) ∧
      inB2 rowLin (0, 0) (1, 2) 3 ∧ inB2 collapseLin (0, 0) (1, 2) 1 ∧
      contig2 rowLin (0, 0) (1, 2) ∧ contig2 collapseLin (0, 0) (1, 2) ∧
      planCopy2 (1, 2) rowLin (0, 0) collapseLin (0, 0) = [(0, 0), (2, 0)] ∧
      ¬ disjRuns 1 0 0 := by
  decide

/-- Witness for claim C6: for the concrete extent (1, 2) copy between
row-major 2 x 2 shapes, any two distinct addressed runs are disjoint. -/
theorem claim_C6_witness :
    ∀ p ∈ planCopy2 (1, 2) rowLin (0, 0) rowLin (0, 0),
      ∀ q ∈ planCopy2 (1, 2) rowLin (0, 0) rowLin (0, 0),
        p ≠ q → disjRuns (1, 2).1 p.2 q.2 :=
  claim_C6.1 (1, 2) (0, 0) (0, 0) rowLin rowLin 4 4 (by decide) (by decide)
    (by decide) (by decide) (by decide) (by decide)
    (by intro a ha b hb a' ha' b' hb' h; simp only [rowLin] at h; omega)

/-- Claim C10: when the axis-0 extent is zero but every outer axis is
positive, a copyN or fillN call still addresses one empty run per outer
coordinate combination, and it completes with the buffers unchanged exactly
when every addressed run start offset is at most the corresponding buffer
length; a zero on any outer axis instead suppresses all indexing, and the
call completes unconditionally. -/
theorem claim_C10 {α : Type} :
    (∀ (cs ss ds : Nat × Nat) (src dst : List α) (slin dlin : Nat → Nat → Nat),
      (rep2 ss cs → rep2 ds cs → cs.1 = 0 → 0 < cs.2 →
        (copy2 cs src slin ss dst dlin ds = some dst ↔
          ∀ j, j < cs.2 →
            slin ss.1 (ss.2 + j) ≤ src.length ∧ dlin ds.1 (ds.2 + j) ≤ dst.length)) ∧
      (cs.1 = 0 → cs.2 = 0 → copy2 cs src slin ss dst dlin ds = some dst)) ∧
    (∀ (cs ss ds : Nat × Nat × Nat) (src dst : List α)
        (slin dlin : Nat → Nat → Nat → Nat),
      (rep3 ss cs → rep3 ds cs → cs.1 = 0 → 0 < cs.2.1 → 0 < cs.2.2 →
        (copy3 cs src slin ss dst dlin ds = some dst ↔
          ∀ j, j < cs.2.1 → ∀ k, k < cs.2.2 →
            slin ss.1 (ss.2.1 + j) (ss.2.2 + k) ≤ src.length ∧
              dlin ds.1 (ds.2.1 + j) (ds.2.2 + k) ≤ dst.length)) ∧
      (cs.1 = 0 → cs.2.1 = 0 ∨ cs.2.2 = 0 → copy3 cs src slin ss dst dlin ds = some dst)) ∧
    (∀ (cs ss ds : Nat × Nat × Nat × Nat) (src dst : List α)
        (slin dlin : Nat → Nat → Nat → Nat → Nat),
      (rep4 ss cs → rep4 ds cs → cs.1 = 0 → 0 < cs.2.1 → 0 < cs.2.2.1 → 0 < cs.2.2.2 →
        (copy4 cs src slin ss dst dlin ds = some dst ↔
          ∀ j, j < cs.2.1 → ∀ k, k < cs.2.2.1 → ∀ l, l < cs.2.2.2 →
            slin ss.1 (ss.2.1 + j) (ss.2.2.1 + k) (ss.2.2.2 + l) ≤ src.length ∧
              dlin ds.1 (ds.2.1 + j) (ds.2.2.1 + k) (ds.2.2.2 + l) ≤ dst.length)) ∧
      (cs.1 = 0 → cs.2.1 = 0 ∨ cs.2.2.1 = 0 ∨ cs.2.2.2 = 0 →
        copy4 cs src slin ss dst dlin ds = some dst)) ∧
    (∀ (fs ds : Nat × Nat) (v : α) (dst : List α) (dlin : Nat → Nat → Nat),
      (rep2 ds fs → fs.1 = 0 → 0 < fs.2 →
        (fill2 fs v dst dlin ds = some dst ↔
          ∀ j, j < fs.2 → dlin ds.1 (ds.2 + j) ≤ dst.length)) ∧
      (fs.1 = 0 → fs.2 = 0 → fill2 fs v dst dlin ds = some dst)) ∧
    (∀ (fs ds : Nat × Nat × Nat) (v : α) (dst : List α)
        (dlin : Nat → Nat → Nat → Nat),
      (rep3 ds fs → fs.1 = 0 → 0 < fs.2.1 → 0 < fs.2.2 →
        (fill3 fs v dst dlin ds = some dst ↔
          ∀ j, j < fs.2.1 → ∀ k, k < fs.2.2 →
            dlin ds.1 (ds.2.1 + j) (ds.2.2 + k) ≤ dst.length)) ∧
      (fs.1 = 0 → fs.2.1 = 0 ∨ fs.2.2 = 0 → fill3 fs v dst dlin ds = some dst)) ∧
    (∀ (fs ds : Nat × Nat × Nat × Nat) (v : α) (dst : List α)
        (dlin : Nat → Nat → Nat → Nat → Nat),
      (rep4 ds fs → fs.1 = 0 → 0 < fs.2.1 → 0 < fs.2.2.1 → 0 < fs.2.2.2 →
        (fill4 fs v dst dlin ds = some dst ↔
          ∀ j, j < fs.2.1 → ∀ k, k < fs.2.2.1 → ∀ l, l < fs.2.2.2 →
            dlin ds.1 (ds.2.1 + j) (ds.2.2.1 + k) (ds.2.2.2 + l) ≤ dst.length)) ∧
      (fs.1 = 0 → fs.2.1 = 0 ∨ fs.2.2.1 = 0 ∨ fs.2.2.2 = 0 →
        fill4 fs v dst dlin ds = some dst)) := by
  refine ⟨?_, ?_, ?_, ?_, ?_, ?_⟩
  · intro cs ss ds src dst slin dlin
    exact ⟨fun hs hd h0 _ => copy2_rowZero_iff hs hd h0,
      fun _ h0 => copy2_outerZero h0⟩
  · intro cs ss ds src dst slin dlin
    exact ⟨fun hs hd h0 _ _ => copy3_rowZero_iff hs hd h0,
      fun _ h0 => copy3_outerZero h0⟩
  · intro cs ss ds src dst slin dlin
    exact ⟨fun hs hd h0 _ _ _ => copy4_rowZero_iff hs hd h0,
      fun _ h0 => copy4_outerZero h0⟩
  · intro fs ds v dst dlin
    exact ⟨fun hd h0 _ => fill2_rowZero_iff hd h0,
      fun _ h0 => fill2_outerZero h0⟩
  · intro fs ds v dst dlin
    exact ⟨fun hd h0 _ _ => fill3_rowZero_iff hd h0,
      fun _ h0 => fill3_outerZero h0⟩
  · intro fs ds v dst dlin
    exact ⟨fun hd h0 _ _ _ => fill4_rowZero_iff hd h0,
      fun _ h0 => fill4_outerZero h0⟩

/-- Witness for claim C10: for a concrete 2D copy with extent (0, 2) between
length-4 row-major buffers, completion with unchanged buffers is equivalent
to the two empty-run start offsets being at most 4. -/
theorem claim_C10_witness :
    copy2 (0, 2) ([9, 9, 9, 9] : List Nat) rowLin (0, 0) ([9, 9, 9, 9] : List Nat)
        rowLin (0, 0) = some [9, 9, 9, 9] ↔
      ∀ j, j < 2 →
        rowLin 0 (0 + j) ≤ (([9, 9, 9, 9] : List Nat)).length ∧
          rowLin 0 (0 + j) ≤ (([9, 9, 9, 9] : List Nat)).length :=
  (claim_C10.1 (0, 2) (0, 0) (0, 0) [9, 9, 9, 9] [9, 9, 9, 9] rowLin rowLin).1
    (by decide) (by decide) (by decide) (by decide)

/-- Claim C7: the concrete 4D scenario. The source has row-major shape
10 x 11 x 12 x 13 with every element 1, the destination has row-major shape
11 x 12 x 13 x 14 with every element 0; copy4 with extent (2,3,4,5), source
start (3,4,5,6) and destination start (4,5,6,7) completes, and afterwards
exactly the coordinates with x in [4,6), y in [5,8), z in [6,10), w in
[7,12) hold 1 while every other coordinate holds 0. -/
theorem claim_C7 :
    ∃ d, copy4 (2, 3, 4, 5) (List.replicate 17160 (1 : Nat)) srcLin4 (3, 4, 5, 6)
        (List.replicate 24024 (0 : Nat)) dstLin4 (4, 5, 6, 7) = some d ∧
      ∀ x y z w, x < 11 → y < 12 → z < 13 → w < 14 →
        d[dstLin4 x y z w]? = some (boxVal x y z w) := by
  have hrep_s : rep4 ((3, 4, 5, 6) : Nat × Nat × Nat × Nat) (2, 3, 4, 5) := by decide
  have hrep_d : rep4 ((4, 5, 6, 7) : Nat × Nat × Nat × Nat) (2, 3, 4, 5) := by decide
  have hbs : inB4 srcLin4 (3, 4, 5, 6) (2, 3, 4, 5)
      ((List.replicate 17160 (1 : Nat)).length) := by
    rw [List.length_replicate]
    intro a ha b hb c hc e he
    have ha1 : a < 2 := ha
    have hb1 : b < 3 := hb
    have hc1 : c < 4 := hc
    have he1 : e < 5 := he
    exact show (3 + a) + 10 * (4 + b) + 110 * (5 + c) + 1320 * (6 + e) < 17160 by omega
  have hbd : inB4 dstLin4 (4, 5, 6, 7) (2, 3, 4, 5)
      ((List.replicate 24024 (0 : Nat)).length) := by
    rw [List.length_replicate]
    intro a ha b hb c hc e he
    have ha1 : a < 2 := ha
    have hb1 : b < 3 := hb
    have hc1 : c < 4 := hc
    have he1 : e < 5 := he
    exact show (4 + a) + 11 * (5 + b) + 132 * (6 + c) + 1716 * (7 + e) < 24024 by omega
  have hcs : contig4 srcLin4 (3, 4, 5, 6) (2, 3, 4, 5) := by
    intro a _ b _ c _ e _
    exact show (3 + a) + 10 * (4 + b) + 110 * (5 + c) + 1320 * (6 + e) =
      (3 + 10 * (4 + b) + 110 * (5 + c) + 1320 * (6 + e)) + a by omega
  have hcd : contig4 dstLin4 (4, 5, 6, 7) (2, 3, 4, 5) := by
    intro a _ b _ c _ e _
    exact show (4 + a) + 11 * (5 + b) + 132 * (6 + c) + 1716 * (7 + e) =
      (4 + 11 * (5 + b) + 132 * (6 + c) + 1716 * (7 + e)) + a by omega
  have hinj : inj4 dstLin4 (4, 5, 6, 7) (2, 3, 4, 5) := by
    intro a ha b hb c hc e he a' ha' b' hb' c' hc' e' he' h
    have ha1 : a < 2 := ha
    have hb1 : b < 3 := hb
    have hc1 : c < 4 := hc
    have he1 : e < 5 := he
    have ha2 : a' < 2 := ha'
    have hb2 : b' < 3 := hb'
    have hc2 : c' < 4 := hc'
    have he2 : e' < 5 := he'
    have h' : (4 + a) + 11 * (5 + b) + 132 * (6 + c) + 1716 * (7 + e) =
        (4 + a') + 11 * (5 + b') + 132 * (6 + c') + 1716 * (7 + e') := h
    omega
  obtain ⟨-, d, hd⟩ := copy4_complete hrep_s hrep_d hbs hbd hcs hcd (by decide)
  refine ⟨d, hd, ?_⟩
  intro x y z w hx hy hz hw
  by_cases hbox : 4 ≤ x ∧ x < 6 ∧ 5 ≤ y ∧ y < 8 ∧ 6 ≤ z ∧ z < 10 ∧ 7 ≤ w ∧ w < 12
  · obtain ⟨a, ha, rfl⟩ : ∃ a, a < 2 ∧ x = 4 + a := ⟨x - 4, by omega, by omega⟩
    obtain ⟨b, hb, rfl⟩ : ∃ b, b < 3 ∧ y = 5 + b := ⟨y - 5, by omega, by omega⟩
    obtain ⟨c, hc, rfl⟩ : ∃ c, c < 4 ∧ z = 6 + c := ⟨z - 6, by omega, by omega⟩
    obtain ⟨e, he, rfl⟩ : ∃ e, e < 5 ∧ w = 7 + e := ⟨w - 7, by omega, by omega⟩
    have hval : d[dstLin4 (4 + a) (5 + b) (6 + c) (7 + e)]? =
        (List.replicate 17160 (1 : Nat))[srcLin4 (3 + a) (4 + b) (5 + c) (6 + e)]? :=
      copy4_values hrep_s hrep_d hcs hcd hinj hd a ha b hb c hc e he
    rw [hval, List.getElem?_replicate,
      if_pos (show srcLin4 (3 + a) (4 + b) (5 + c) (6 + e) < 17160 by
        simp only [srcLin4]; omega)]
    have hbv : boxVal (4 + a) (5 + b) (6 + c) (7 + e) = 1 := by
      simp only [boxVal]
      rw [if_pos]
      exact ⟨by omega, by omega, by omega, by omega, by omega, by omega, by omega, by omega⟩
    rw [hbv]
  · have hout : ∀ p ∈ planCopy4 (2, 3, 4, 5) srcLin4 (3, 4, 5, 6) dstLin4 (4, 5, 6, 7),
        ¬ hits (2, 3, 4, 5).1 (dstLin4 x y z w) p.2 := by
      intro p hp hhit
      obtain ⟨l, hl, k, hk, j, hj, hpe⟩ := (mem_planCopy4 hrep_s hrep_d).mp hp
      subst hpe
      obtain ⟨h1, h2⟩ := hhit
      have hj1 : j < 3 := hj
      have hk1 : k < 4 := hk
      have hl1 : l < 5 := hl
      have h1' : 4 + 11 * (5 + j) + 132 * (6 + k) + 1716 * (7 + l) ≤
          x + 11 * y + 132 * z + 1716 * w := h1
      have h2' : x + 11 * y + 132 * z + 1716 * w <
          (4 + 11 * (5 + j) + 132 * (6 + k) + 1716 * (7 + l)) + 2 := h2
      omega
    have hfr := copy4_frame hrep_s.1 hrep_d.1 hrep_s.2.2.1 hrep_d.2.2.1
      hrep_s.2.2.2.2.1 hrep_d.2.2.2.2.1 hd (dstLin4 x y z w) hout
    rw [hfr, List.getElem?_replicate,
      if_pos (show dstLin4 x y z w < 24024 by simp only [dstLin4]; omega)]
    have hbv : boxVal x y z w = 0 := by
      simp only [boxVal]
      rw [if_neg hbox]
    rw [hbv]

/-- Witness for claim C7: the copy completes and the destination holds 1 at
coordinate (4,5,6,7), a corner of the copied hyper-rectangle. -/
theorem claim_C7_witness :
    ∃ d, copy4 (2, 3, 4, 5) (List.replicate 17160 (1 : Nat)) srcLin4 (3, 4, 5, 6)
        (List.replicate 24024 (0 : Nat)) dstLin4 (4, 5, 6, 7) = some d ∧
      d[dstLin4 4 5 6 7]? = some (boxVal 4 5 6 7) := by
  obtain ⟨d, h1, h2⟩ := claim_C7
  exact ⟨d, h1, h2 4 5 6 7 (by decide) (by decide) (by decide) (by decide)⟩

end Ndcopy
